import Mathlib

/-!
Verification of the aos-openclaw-constitutional policy evaluator.

This file gives a shallow embedding of the Python sources
(`scripts/risk.py`, `scripts/classify.py`, `scripts/evaluate.py`,
`scripts/verify.py`, `scripts/apply_disclosure.py`, `scripts/c14n.py`)
and proves or refutes the specification claims about them.

Conventions of the embedding:
* YAML/JSON values (and Python objects flowing through the evaluator) are
  modelled by the inductive `Json`; Python mappings are association lists in
  insertion order, as CPython dicts are ordered.
* Places where the Python code can raise an exception are modelled with
  `Except String`; the error string names the Python exception class.
* Machine-level pieces (SHA-256, UTF-8, base64, hex) are implemented over
  `Nat` bytes; character classes follow Python regex semantics on the ASCII
  range, which covers every string the sources match against.
-/

namespace AosPolicy

/-! JSON/YAML-like values: the data model shared by the constitution, tool
arguments, intent and obligations. Objects are association lists in insertion
order (CPython dicts preserve insertion order). The list and pair layers are
part of the mutual family so that every function on values is structurally
recursive (and therefore evaluates inside the kernel). -/
mutual
inductive Json where
  | null : Json
  | bool : Bool → Json
  | num : Int → Json
  | str : String → Json
  | arr : JList → Json
  | obj : JPairs → Json
inductive JList where
  | nil : JList
  | cons : Json → JList → JList
inductive JPairs where
  | nil : JPairs
  | cons : String → Json → JPairs → JPairs
end

deriving instance DecidableEq for Json, JList, JPairs

instance {e a : Type} [DecidableEq e] [DecidableEq a] : DecidableEq (Except e a) :=
  fun x y =>
    match x, y with
    | .ok v, .ok w => if h : v = w then isTrue (by rw [h]) else isFalse (by simp [h])
    | .error v, .error w => if h : v = w then isTrue (by rw [h]) else isFalse (by simp [h])
    | .ok _, .error _ => isFalse (by simp)
    | .error _, .ok _ => isFalse (by simp)

/-- Python mapping: keys to values, in insertion order. -/
abbrev Dict := JPairs

def JList.ofList : List Json → JList
  | [] => .nil
  | x :: xs => .cons x (JList.ofList xs)

def JList.toList : JList → List Json
  | .nil => []
  | .cons x xs => x :: xs.toList

def JPairs.ofList : List (String × Json) → JPairs
  | [] => .nil
  | (k, v) :: rest => .cons k v (JPairs.ofList rest)

def JPairs.toList : JPairs → List (String × Json)
  | .nil => []
  | .cons k v rest => (k, v) :: rest.toList

def JList.isNil : JList → Bool
  | .nil => true
  | .cons _ _ => false

def JPairs.isNil : JPairs → Bool
  | .nil => true
  | .cons _ _ _ => false

def JPairs.keys : JPairs → List String
  | .nil => []
  | .cons k _ rest => k :: rest.keys

def JPairs.length : JPairs → Nat
  | .nil => 0
  | .cons _ _ rest => rest.length + 1

def JList.length : JList → Nat
  | .nil => 0
  | .cons _ rest => rest.length + 1

/-- First binding of key `k`, as CPython dict lookup (keys are unique in any
dict that came from YAML/JSON, so first-match is exact). -/
def getVal : Dict → String → Option Json
  | .nil, _ => none
  | .cons k1 v rest, k => if k1 = k then some v else getVal rest k

/-- `d.get(k)`: `None` when the key is absent (Python dict.get default). -/
def dictGet (d : Dict) (k : String) : Json :=
  (getVal d k).getD Json.null

/-- Python truthiness of a value: `None`, `False`, `0`, `""`, `[]`, and
an empty dict are falsy. -/
def Json.truthy : Json → Bool
  | .null => false
  | .bool b => b
  | .num n => n != 0
  | .str s => s ≠ ""
  | .arr xs => !xs.isNil
  | .obj kvs => !kvs.isNil

/-- Python `a or b`. -/
def pyOr (a b : Json) : Json := if a.truthy then a else b

/-- `x.get(k)` on an arbitrary value: only mappings have `.get`; anything
else (including `None`) raises `AttributeError`. -/
def pyGet (j : Json) (k : String) : Except String Json :=
  match j with
  | .obj kvs => .ok (dictGet kvs k)
  | _ => .error "AttributeError"

/-- Python iteration (`for x in v`, `list(v)`): lists yield their elements,
strings their characters, mappings their keys; other values raise
`TypeError`. -/
def pyList (j : Json) : Except String (List Json) :=
  match j with
  | .arr xs => .ok xs.toList
  | .str s => .ok (s.data.map (fun c => Json.str (String.mk [c])))
  | .obj kvs => .ok (kvs.keys.map Json.str)
  | _ => .error "TypeError"

/-- Substring test over characters. -/
def infixOf (needle hay : List Char) : Bool :=
  match hay with
  | [] => needle.isEmpty
  | _ :: rest => needle.isPrefixOf hay || infixOf needle rest

/-- Python `needle in hay` for strings. -/
def strIn (needle hay : String) : Bool := infixOf needle.data hay.data

/-- Python `k in v` for a string key: mappings test key membership, lists test
element equality, strings test substring containment; other values raise
`TypeError`. -/
def pyContains (k : String) (j : Json) : Except String Bool :=
  match j with
  | .obj kvs => .ok (kvs.keys.any (fun k1 => k1 = k))
  | .arr xs => .ok (xs.toList.any (fun x => match x with | .str s => s = k | _ => false))
  | .str s => .ok (strIn k s)
  | _ => .error "TypeError"

/-- Python `v[k]` for a string key: mappings index (raising `KeyError` when
absent); every other value raises `TypeError`. -/
def pyIndex (j : Json) (k : String) : Except String Json :=
  match j with
  | .obj kvs =>
      match getVal kvs k with
      | some v => .ok v
      | none => .error "KeyError"
  | _ => .error "TypeError"

/-- Python `len(v)`: defined for strings, lists and mappings; other values
raise `TypeError`. -/
def pyLen (j : Json) : Except String Nat :=
  match j with
  | .str s => .ok s.length
  | .arr xs => .ok xs.length
  | .obj kvs => .ok kvs.length
  | _ => .error "TypeError"

/-! ### String scanning (Python regex fragments used by the sources)

The sources use `re` only through fixed patterns; each is implemented
directly. Word characters follow `\w` on the ASCII range (all patterns in
the sources are ASCII). -/

/-- `\w`: letter, digit or underscore (ASCII range). -/
def isWordChar (c : Char) : Bool := c.isAlphanum || c = '_'

/-- Python `\s` whitespace (ASCII range). -/
def isPySpace (c : Char) : Bool :=
  c = ' ' || c = '\t' || c = '\n' || c = '\r' || c.toNat = 11 || c.toNat = 12

/-- Python `str.strip()` with no argument: remove leading and trailing
whitespace. -/
def pyStrip (s : String) : String :=
  String.mk (((s.data.dropWhile isPySpace).reverse.dropWhile isPySpace).reverse)

/-- ASCII lowercasing of one character (`str.lower()`; every string the
sources lowercase is ASCII). -/
def lcChar (c : Char) : Char :=
  if 65 ≤ c.toNat && c.toNat ≤ 90 then Char.ofNat (c.toNat + 32) else c

/-- Python `s.lower()` on the ASCII range. -/
def lcStr (s : String) : String := String.mk (s.data.map lcChar)

/-- Case-insensitive literal match at the head; returns the rest on success. -/
def matchCI : List Char → List Char → Option (List Char)
  | [], rest => some rest
  | _, [] => none
  | a :: as, c :: cs => if lcChar a = lcChar c then matchCI as cs else none

/-- Case-sensitive literal match at the head; returns the rest on success. -/
def matchCS : List Char → List Char → Option (List Char)
  | [], rest => some rest
  | _, [] => none
  | a :: as, c :: cs => if a = c then matchCS as cs else none

/-- `\b` after a pattern that ends in a word character: end of string or a
non-word character next. -/
def endBoundary : List Char → Bool
  | [] => true
  | c :: _ => !isWordChar c

/-- `\s+` followed by a non-space pattern: at least one whitespace character,
consumed greedily. -/
def ws1 : List Char → Option (List Char)
  | [] => none
  | c :: cs => if isPySpace c then some (cs.dropWhile isPySpace) else none

/-- `re.search` of `\b(w1|w2|...)\b` with `re.I`, for plain alphabetic
alternatives: scan every position that sits on a word boundary. -/
def searchWordsAux (ws : List (List Char)) : Bool → List Char → Bool
  | _, [] => false
  | atB, c :: cs =>
    (atB && ws.any (fun w =>
      match matchCI w (c :: cs) with
      | some rest => endBoundary rest
      | none => false))
    || searchWordsAux ws (!isWordChar c) cs

/-- `re.search(r"\b(w1|w2|...)\b", s, re.I)` as a Boolean. -/
def searchWords (ws : List String) (s : String) : Bool :=
  searchWordsAux (ws.map String.data) true s.data

/-- `AI_DISCLOSURE_HINT = re.compile(r"\b(ai|assistant|bot)\b", re.I)` from
`classify.py` and `apply_disclosure.py`. -/
def aiDisclosureHint (s : String) : Bool := searchWords ["ai", "assistant", "bot"] s

/-- `re.search(r"\b(defame|ruin|expose|leak|doxx)\b", msg, re.I)` from
`classify.py`. -/
def reputationalHit (s : String) : Bool :=
  searchWords ["defame", "ruin", "expose", "leak", "doxx"] s

/-- One alternative of `\b(rm\s+-rf|del\s+/s|format\b)\b` matched at the
current position (`re.I`). -/
def finAt (cs : List Char) : Bool :=
  (match matchCI "rm".data cs with
   | some r1 =>
     (match ws1 r1 with
      | some r2 =>
        (match matchCI "-rf".data r2 with
         | some r3 => endBoundary r3
         | none => false)
      | none => false)
   | none => false)
  || (match matchCI "del".data cs with
      | some r1 =>
        (match ws1 r1 with
         | some r2 =>
           (match matchCI "/s".data r2 with
            | some r3 => endBoundary r3
            | none => false)
         | none => false)
      | none => false)
  || (match matchCI "format".data cs with
      | some r => endBoundary r
      | none => false)

def searchFinAux : Bool → List Char → Bool
  | _, [] => false
  | atB, c :: cs => (atB && finAt (c :: cs)) || searchFinAux (!isWordChar c) cs

/-- `re.search(r"\b(rm\s+-rf|del\s+/s|format\b)\b", cmd, re.I)` from
`classify.py` (financial-harm heuristic). -/
def financialHit (s : String) : Bool := searchFinAux true s.data

/-- `([A-Z][a-z]+)\b` at the current position: a capital, at least one
lowercase letter, then a word boundary after the maximal lowercase run
(backtracking inside the run cannot help, since lowercase letters are word
characters). -/
def capWordBoundary : List Char → Bool
  | [] => false
  | c :: rest =>
    c.isUpper &&
      (match rest with
       | [] => false
       | d :: rest2 => d.isLower && endBoundary (rest2.dropWhile Char.isLower))

/-- One of `IMPERSONATION_PATTERNS` (case-sensitive) matched at the current
position: `\bthis is\s+([A-Z][a-z]+)\b`, `\bi am\s+...`, `\bfrom\s+...`. -/
def impersonationAt (cs : List Char) : Bool :=
  (match matchCS "this is".data cs with
   | some r1 => (match ws1 r1 with | some r2 => capWordBoundary r2 | none => false)
   | none => false)
  || (match matchCS "i am".data cs with
      | some r1 => (match ws1 r1 with | some r2 => capWordBoundary r2 | none => false)
      | none => false)
  || (match matchCS "from".data cs with
      | some r1 => (match ws1 r1 with | some r2 => capWordBoundary r2 | none => false)
      | none => false)

def searchImpersonationAux : Bool → List Char → Bool
  | _, [] => false
  | atB, c :: cs => (atB && impersonationAt (c :: cs)) || searchImpersonationAux (!isWordChar c) cs

/-- `any(p.search(msg) for p in IMPERSONATION_PATTERNS)` from `classify.py`. -/
def impersonationHit (s : String) : Bool := searchImpersonationAux true s.data

/-! ### Canonical JSON (`c14n.py` / `json.dumps(..., sort_keys=True,
separators=(",", ":"), ensure_ascii=False)`) -/

/-- Lowercase hex digit. -/
def hexDigit (n : Nat) : Char := if n < 10 then Char.ofNat (48 + n) else Char.ofNat (87 + n)

/-- JSON escape of a single character as `json.dumps` with
`ensure_ascii=False` emits it: `"` and `\` escaped, control characters below
0x20 as `\b \t \n \f \r` or `\u00XX`, everything else verbatim. -/
def escChar (c : Char) : String :=
  let n := c.toNat
  if n = 8 then "\\b"
  else if n = 9 then "\\t"
  else if n = 10 then "\\n"
  else if n = 12 then "\\f"
  else if n = 13 then "\\r"
  else if n < 32 then "\\u00" ++ String.mk [hexDigit (n / 16), hexDigit (n % 16)]
  else if c = '"' then "\\\""
  else if c = '\\' then "\\\\"
  else String.mk [c]

/-- JSON string literal. -/
def quoteStr (s : String) : String := "\"" ++ String.join (s.data.map escChar) ++ "\""

/-- Lexicographic comparison of character lists by code point (how Python
compares strings). -/
def charListLe : List Char → List Char → Bool
  | [], _ => true
  | _ :: _, [] => false
  | a :: as, b :: bs =>
      if a.toNat < b.toNat then true
      else if b.toNat < a.toNat then false
      else charListLe as bs

/-- Python `a <= b` on strings. -/
def strLeB (a b : String) : Bool := charListLe a.data b.data

/-- Stable insertion sort on strings: Python `sorted` for lists of strings. -/
def insertStr (x : String) : List String → List String
  | [] => [x]
  | y :: ys => if strLeB x y then x :: y :: ys else y :: insertStr x ys

def sortStrings : List String → List String
  | [] => []
  | x :: xs => insertStr x (sortStrings xs)

/-- Stable insertion into a key-sorted pair list (ties keep the earlier
element first, matching Python `sorted`). -/
def insertPairJP (k : String) (v : Json) : JPairs → JPairs
  | .nil => .cons k v .nil
  | .cons k2 v2 tl =>
      if strLeB k k2 then .cons k v (.cons k2 v2 tl) else .cons k2 v2 (insertPairJP k v tl)

/-- `sorted` on key/value pairs by key (Python sorts strings
lexicographically on code points, which is exactly `String` order). -/
def sortPairsJP : JPairs → JPairs
  | .nil => .nil
  | .cons k v tl => insertPairJP k v (sortPairsJP tl)

/-! The recursive `sort_keys` helper of `c14n.py`/`verify.py`: sort every
mapping by key, recursively; sequences keep their order. -/
mutual
def sortKeysJson : Json → Json
  | .obj kvs => .obj (sortPairsJP (sortKeysPairs kvs))
  | .arr xs => .arr (sortKeysList xs)
  | .null => .null
  | .bool b => .bool b
  | .num n => .num n
  | .str s => .str s
def sortKeysList : JList → JList
  | .nil => .nil
  | .cons x tl => .cons (sortKeysJson x) (sortKeysList tl)
def sortKeysPairs : JPairs → JPairs
  | .nil => .nil
  | .cons k v tl => .cons k (sortKeysJson v) (sortKeysPairs tl)
end

/-! Compact JSON rendering, `json.dumps(v, ensure_ascii=False,
separators=(",", ":"))` (no key sorting: the sources sort first via
`sort_keys`/`sort_keys=True`, which is the same as rendering
`sortKeysJson v`). -/
mutual
def encodeJson : Json → String
  | .null => "null"
  | .bool true => "true"
  | .bool false => "false"
  | .num n => toString n
  | .str s => quoteStr s
  | .arr xs => "[" ++ encodeList xs ++ "]"
  | .obj kvs => "\x7b" ++ encodePairs kvs ++ "\x7d"
def encodeList : JList → String
  | .nil => ""
  | .cons x .nil => encodeJson x
  | .cons x tl => encodeJson x ++ "," ++ encodeList tl
def encodePairs : JPairs → String
  | .nil => ""
  | .cons k v .nil => quoteStr k ++ ":" ++ encodeJson v
  | .cons k v tl => quoteStr k ++ ":" ++ encodeJson v ++ "," ++ encodePairs tl
end

/-- UTF-8 encoding of one code point. -/
def utf8Char (n : Nat) : List Nat :=
  if n < 128 then [n]
  else if n < 2048 then [192 + n / 64, 128 + n % 64]
  else if n < 65536 then [224 + n / 4096, 128 + n / 64 % 64, 128 + n % 64]
  else [240 + n / 262144, 128 + n / 4096 % 64, 128 + n / 64 % 64, 128 + n % 64]

/-- `str.encode("utf-8")` as a byte list. -/
def utf8Bytes (s : String) : List Nat :=
  s.data.foldr (fun c acc => utf8Char c.toNat ++ acc) []

/-- `c14n_json` from `evaluate.py`: canonical JSON bytes with recursively
sorted keys. -/
def c14nJson (j : Json) : List Nat := utf8Bytes (encodeJson (sortKeysJson j))

/-! ### SHA-256 (`hashlib.sha256`), over `Nat` bytes with explicit `% 2^32` -/

def add32 (a b : Nat) : Nat := (a + b) % 4294967296

def rotr (k x : Nat) : Nat := (x / 2 ^ k + x % 2 ^ k * 2 ^ (32 - k)) % 4294967296

def shr (k x : Nat) : Nat := x / 2 ^ k

def xor3 (a b c : Nat) : Nat := Nat.xor (Nat.xor a b) c

def ssig0 (x : Nat) : Nat := xor3 (rotr 7 x) (rotr 18 x) (shr 3 x)

def ssig1 (x : Nat) : Nat := xor3 (rotr 17 x) (rotr 19 x) (shr 10 x)

def bsig0 (x : Nat) : Nat := xor3 (rotr 2 x) (rotr 13 x) (rotr 22 x)

def bsig1 (x : Nat) : Nat := xor3 (rotr 6 x) (rotr 11 x) (rotr 25 x)

def chF (x y z : Nat) : Nat := Nat.xor (Nat.land x y) (Nat.land (4294967295 - x % 4294967296) z)

def majF (x y z : Nat) : Nat := xor3 (Nat.land x y) (Nat.land x z) (Nat.land y z)

def shaK : List Nat :=
  [1116352408, 1899447441, 3049323471, 3921009573, 961987163, 1508970993, 2453635748, 2870763221,
   3624381080, 310598401, 607225278, 1426881987, 1925078388, 2162078206, 2614888103, 3248222580,
   3835390401, 4022224774, 264347078, 604807628, 770255983, 1249150122, 1555081692, 1996064986,
   2554220882, 2821834349, 2952996808, 3210313671, 3336571891, 3584528711, 113926993, 338241895,
   666307205, 773529912, 1294757372, 1396182291, 1695183700, 1986661051, 2177026350, 2456956037,
   2730485921, 2820302411, 3259730800, 3345764771, 3516065817, 3600352804, 4094571909, 275423344,
   430227734, 506948616, 659060556, 883997877, 958139571, 1322822218, 1537002063, 1747873779,
   1955562222, 2024104815, 2227730452, 2361852424, 2428436474, 2756734187, 3204031479, 3329325298]

def shaH0 : List Nat :=
  [1779033703, 3144134277, 1013904242, 2773480762, 1359893119, 2600822924, 528734635, 1541459225]

/-- Big-endian 8-byte length field. -/
def be8 (n : Nat) : List Nat :=
  [n / 2 ^ 56 % 256, n / 2 ^ 48 % 256, n / 2 ^ 40 % 256, n / 2 ^ 32 % 256,
   n / 2 ^ 24 % 256, n / 2 ^ 16 % 256, n / 2 ^ 8 % 256, n % 256]

/-- SHA-256 padding: `0x80`, zeros to 56 mod 64, then the bit length. -/
def padMsg (msg : List Nat) : List Nat :=
  msg ++ [128] ++ List.replicate ((119 - msg.length % 64) % 64) 0 ++ be8 (8 * msg.length)

/-- Split into 64-byte blocks (the accumulator holds the current block in
reverse; SHA-256 padding always yields a multiple of 64 bytes). -/
def chunks64Aux : List Nat → List Nat → List (List Nat)
  | acc, [] => if acc.isEmpty then [] else [acc.reverse]
  | acc, x :: rest =>
      if acc.length = 63 then (x :: acc).reverse :: chunks64Aux [] rest
      else chunks64Aux (x :: acc) rest

def chunks64 (l : List Nat) : List (List Nat) := chunks64Aux [] l

/-- Big-endian 32-bit words from bytes. -/
def wordsOf : List Nat → List Nat
  | a :: b :: c :: d :: rest => (a * 16777216 + b * 65536 + c * 256 + d) :: wordsOf rest
  | _ => []

def scheduleStep (w : List Nat) : Nat :=
  add32 (add32 (ssig1 (w.getD (w.length - 2) 0)) (w.getD (w.length - 7) 0))
        (add32 (ssig0 (w.getD (w.length - 15) 0)) (w.getD (w.length - 16) 0))

def extendW : Nat → List Nat → List Nat
  | 0, w => w
  | k + 1, w => extendW k (w ++ [scheduleStep w])

def roundStep (state : List Nat) (kw : Nat × Nat) : List Nat :=
  match state with
  | [a, b, c, d, e, f, g, h] =>
    let t1 := add32 h (add32 (bsig1 e) (add32 (chF e f g) (add32 kw.1 kw.2)))
    let t2 := add32 (bsig0 a) (majF a b c)
    [add32 t1 t2, a, b, c, add32 d t1, e, f, g]
  | s => s

def shaCompress (h : List Nat) (block : List Nat) : List Nat :=
  let ws := extendW 48 (wordsOf block)
  let final := (shaK.zip ws).foldl roundStep h
  (h.zip final).map (fun p => add32 p.1 p.2)

/-- `hashlib.sha256(msg).digest()` as a list of 32 bytes. -/
def sha256 (msg : List Nat) : List Nat :=
  ((chunks64 (padMsg msg)).foldl shaCompress shaH0).foldr
    (fun w acc => [w / 16777216 % 256, w / 65536 % 256, w / 256 % 256, w % 256] ++ acc) []

def hexByte (n : Nat) : String := String.mk [hexDigit (n / 16 % 16), hexDigit (n % 16)]

/-- `.hexdigest()`: lowercase hex of the digest bytes. -/
def hexStr (bytes : List Nat) : String := String.join (bytes.map hexByte)

/-- Python `str(v)` for the values the evaluator feeds it. Scalars follow
Python exactly; containers are rendered as compact JSON (Python uses `repr`,
which differs only in quoting — no code path in the claims applies `str` to
a container). -/
def pyStr : Json → String
  | .str s => s
  | .null => "None"
  | .bool true => "True"
  | .bool false => "False"
  | .num n => toString n
  | .arr xs => encodeJson (.arr xs)
  | .obj kvs => encodeJson (.obj kvs)

/-- `p if isinstance(p, str) else None`. -/
def strOpt : Json → Option String
  | .str s => some s
  | _ => none

/-- `pre` is a prefix of `s` (Python `s.startswith(pre)`). -/
def strStarts (pre s : String) : Bool := pre.data.isPrefixOf s.data

/-- `suf` is a suffix of `s` (Python `s.endswith(suf)`). -/
def strEnds (suf s : String) : Bool := suf.data.isSuffixOf s.data

/-! ### `risk.py`: deterministic risk classification -/

/-- Risk levels `low < medium < high < critical` (an `IntEnum` in the
source). -/
inductive Risk where
  | low | medium | high | critical
deriving DecidableEq

def Risk.toNat : Risk → Nat
  | .low => 0
  | .medium => 1
  | .high => 2
  | .critical => 3

def Risk.name : Risk → String
  | .low => "low"
  | .medium => "medium"
  | .high => "high"
  | .critical => "critical"

/-- Python `max` on two enum members (keeps the first on ties). -/
def riskMax (a b : Risk) : Risk := if b.toNat ≤ a.toNat then a else b

/-- `TOOL_BASE` from `risk.py`. -/
def TOOL_BASE : List (String × Risk) :=
  [("message.send", .high), ("message.broadcast", .critical),
   ("read", .medium), ("write", .high), ("edit", .high),
   ("exec", .critical),
   ("web_fetch", .medium), ("browser.navigate", .medium), ("browser.upload", .high),
   ("nodes.location_get", .high), ("nodes.camera_snap", .high), ("nodes.screen_record", .high)]

/-- `SENSITIVE_PATH_HINTS` from `risk.py` (note the literal backslashes
around `AppData` and `.ssh`). -/
def SENSITIVE_PATH_HINTS : List String :=
  ["\\AppData\\", "\\.ssh\\", "id_rsa", "id_ed25519", "password", "secrets", "token"]

/-- `tool_base_risk`: table lookup, `medium` for unknown tools. -/
def tool_base_risk (tool : String) : Risk :=
  (TOOL_BASE.lookup tool).getD .medium

/-- `" ".join(xs)`: every element must be a string, else `TypeError`. -/
def pyJoinSp (xs : List Json) : Except String String := do
  let strs ← xs.mapM (fun x => match x with
    | Json.str s => Except.ok s
    | _ => Except.error "TypeError")
  pure (String.intercalate " " strs)

/-- The command string both `risk.py` and `classify.py` build:
`" ".join(args.get("command", [])) if isinstance(args.get("command"), list)
else str(args.get("command", ""))`. -/
def cmdOf (args : Dict) : Except String String :=
  match getVal args "command" with
  | some (.arr xs) => pyJoinSp xs.toList
  | some j => pure (pyStr j)
  | none => pure (pyStr (.str ""))

/-- `arg_risk` from `risk.py`. -/
def arg_risk (tool : String) (args : Dict) : Except String Risk := do
  if tool = "exec" then
    let cmd ← cmdOf args
    let c := lcStr cmd
    if ["curl ", "wget ", "invoke-webrequest", "scp ", "ssh "].any (fun x => strIn x c) then
      return Risk.critical
    if ["rm ", "rmdir", "del ", "format", ":()\x7b"].any (fun x => strIn x c) then
      return Risk.critical
    return Risk.high
  if ["read", "write", "edit"].contains tool then
    match pyOr (dictGet args "path") (dictGet args "file_path") with
    | .str p =>
        if SENSITIVE_PATH_HINTS.any (fun h => strIn (lcStr h) (lcStr p)) then
          return Risk.high
        else
          return Risk.medium
    | _ => return Risk.medium
  if ["message.send", "message.broadcast"].contains tool then
    let msg := pyOr (dictGet args "message") (.str "")
    let n ← pyLen msg
    if n > 2000 then return Risk.high
    return Risk.high
  return Risk.low

/-- `egress_risk` from `risk.py`. -/
def egress_risk (tool : String) (_args : Dict) : Risk :=
  if ["message.send", "message.broadcast", "browser.upload"].contains tool then .high
  else if tool = "web_fetch" then .medium
  else .low

/-- `scope_risk` from `risk.py` (`if not intent` is Python truthiness: `None`
or an empty mapping). -/
def scope_risk (_sessionKind : String) (intent : Option Dict) : Risk :=
  match intent with
  | none => .medium
  | some d =>
      if d.isNil then .medium
      else match dictGet d "explicit_confirmation" with
        | .bool true => .low
        | _ => .medium

/-- `classify` from `risk.py`: `max` of the four axes. -/
def classify_risk (tool : String) (args : Dict) (sessionKind : String)
    (intent : Option Dict) : Except String Risk := do
  let ar ← arg_risk tool args
  pure (riskMax (riskMax (riskMax (tool_base_risk tool) ar)
                  (egress_risk tool args))
         (scope_risk sessionKind intent))

/-! ### `classify.py`: deterministic classification tags -/

/-- Result record of `classify.py` (`Classified`). Tags are a set, modelled
as a duplicate-free list; `details` is an insertion-ordered mapping. -/
structure Classified where
  risk : Risk
  tags : List String
  details : Dict
deriving DecidableEq

/-- `set.add`. -/
def addTag (t : String) (tags : List String) : List String :=
  if tags.contains t then tags else t :: tags

/-- `dst[k] = v`: replace in place when the key exists, else append. -/
def setKey : Dict → String → Json → Dict
  | .nil, k, v => .cons k v .nil
  | .cons k2 v2 tl, k, v =>
      if k2 = k then .cons k2 v tl else .cons k2 v2 (setKey tl k v)

/-- `_get_allowlist_domains` from `classify.py`. -/
def getAllowlistDomains (constitution : Json) : Except String (List String) := do
  if !constitution.truthy then return []
  let egress := pyOr (← pyGet constitution "egress") (.obj .nil)
  let domains := pyOr (← pyGet egress "allowlist_domains") (.arr .nil)
  let ds ← pyList domains
  pure (ds.map (fun d => lcStr (pyStr d)))

def extractHost (cs : List Char) : List String :=
  let host := cs.takeWhile (fun c => !(c == '/'))
  if host.isEmpty then [] else [String.mk host]

/-- `add_from_url` inside `_extract_domains_from_args`:
`re.match(r"^https?://([^/]+)", url.strip(), re.I)`, host lowercased. -/
def addFromUrl (url : String) : List String :=
  let t := (lcStr (pyStrip url)).data
  match matchCS "https://".data t with
  | some rest => extractHost rest
  | none =>
      match matchCS "http://".data t with
      | some rest => extractHost rest
      | none => []

/-- `_extract_domains_from_args` from `classify.py`. -/
def extractDomains (tool : String) (args : Dict) : List String :=
  (if tool = "web_fetch" then
     match dictGet args "url" with
     | .str u => addFromUrl u
     | _ => []
   else []) ++
  (if strStarts "browser." tool then
     match pyOr (dictGet args "targetUrl") (dictGet args "url") with
     | .str u => addFromUrl u
     | _ => []
   else [])

/-- The hidden-action block of `classify`:
`intent is not None and intent.get("user_requested") is False`. -/
def hiddenActionTags (intent : Option Dict) : List String :=
  match intent with
  | some d =>
      (match dictGet d "user_requested" with
       | .bool false => addTag "hidden_action" []
       | _ => [])
  | none => []

/-- The path-privacy block of `classify` (tools `read|write|edit`). -/
def pathStage (tool : String) (args : Dict) (intent : Option Dict)
    (tags : List String) : List String × Dict :=
  if ["read", "write", "edit"].contains tool then
    match pyOr (dictGet args "path") (dictGet args "file_path") with
    | .str p =>
        let det := setKey .nil "path" (.str p)
        let ws := match intent with
          | some d => dictGet d "workspace"
          | none => Json.null
        (match ws with
         | .str w =>
             if !(strStarts (lcStr w) (lcStr p)) then
               (addTag "unauthorized_file_access" tags, det)
             else (tags, det)
         | _ => (tags, det))
    | _ => (tags, JPairs.nil)
  else (tags, JPairs.nil)

/-- The egress-allowlist block of `classify`. -/
def egressStage (allowlist domains : List String) (tags : List String)
    (details : Dict) : List String × Dict :=
  if domains.isEmpty then (tags, details)
  else
    let det := setKey details "domains" (.arr (JList.ofList (domains.map Json.str)))
    if allowlist.isEmpty then (tags, det)
    else
      let det2 := setKey det "allowlist_domains" (.arr (JList.ofList (allowlist.map Json.str)))
      if domains.any (fun d =>
           !(allowlist.contains d) && !(allowlist.any (fun a => strEnds ("." ++ a) d))) then
        (addTag "unauthorized_egress" tags, det2)
      else (tags, det2)

/-- The messaging deception/impersonation block of `classify`. -/
def messagingStage (tool : String) (args : Dict) (tags : List String)
    (details : Dict) : List String × Dict :=
  if ["message.send", "message.broadcast"].contains tool then
    let msg := pyStr (pyOr (dictGet args "message") (.str ""))
    if msg ≠ "" then
      let det := setKey details "message_len" (.num msg.length)
      let t1 :=
        if impersonationHit msg && !(aiDisclosureHint msg) then
          addTag "impersonation" tags
        else tags
      let t2 := if reputationalHit msg then addTag "harm_reputational" t1 else t1
      (t2, det)
    else (tags, details)
  else (tags, details)

/-- The exec harm-heuristics block of `classify`. -/
def execStage (tool : String) (args : Dict) (tags : List String)
    (details : Dict) : Except String (List String × Dict) := do
  if tool = "exec" then
    let cmd ← cmdOf args
    let det := setKey details "command" (.str cmd)
    let t := if financialHit cmd then addTag "harm_financial" tags else tags
    pure (t, det)
  else pure (tags, details)

/-- The final promotion block of `classify`: any of the four harm tags also
adds `constitutionally_prohibited`. -/
def promoteStage (tags : List String) : List String :=
  if ["impersonation", "harm_financial", "harm_physical", "harm_reputational"].any
       (fun t => tags.contains t) then
    addTag "constitutionally_prohibited" tags
  else tags

/-- `classify` from `classify.py`, block by block in source order. -/
def classify (tool : String) (args : Dict) (constitution : Json)
    (sessionKind : String) (intent : Option Dict) : Except String Classified := do
  let risk ← classify_risk tool args sessionKind intent
  let tags1 := hiddenActionTags intent
  let (tags2, details1) := pathStage tool args intent tags1
  let allowlist ← getAllowlistDomains constitution
  let domains := extractDomains tool args
  let (tags3, details2) := egressStage allowlist domains tags2 details1
  let (tags4, details3) := messagingStage tool args tags3 details2
  let (tags5, details4) ← execStage tool args tags4 details3
  pure { risk := risk, tags := promoteStage tags5, details := details4 }

/-! ### `evaluate.py`: the two-pass rule engine and evaluator facade -/

/-- `ORDER = {"allow": 0, "confirm": 1, "deny": 2}`. -/
def ORDER : List (String × Nat) := [("allow", 0), ("confirm", 1), ("deny", 2)]

/-- `ORDER[s]`: `KeyError` on anything else. -/
def orderOf (s : String) : Except String Nat :=
  match ORDER.lookup s with
  | some n => .ok n
  | none => .error "KeyError"

/-- `max_decision` from `evaluate.py`. -/
def max_decision (a b : String) : Except String String := do
  let x ← orderOf a
  let y ← orderOf b
  pure (if x ≥ y then a else b)

def LEVELS : List String := ["low", "medium", "high", "critical"]

/-- `list.index`: `ValueError` when missing. -/
def listIndex (s : String) : List String → Except String Nat
  | [] => .error "ValueError"
  | x :: xs =>
      if x = s then .ok 0
      else do
        let n ← listIndex s xs
        pure (n + 1)

/-- `risk_ge` from `evaluate.py`. -/
def risk_ge (risk atLeast : String) : Except String Bool := do
  let i ← listIndex risk LEVELS
  let j ← listIndex atLeast LEVELS
  pure (i ≥ j)

/-- `tool_matches` from `evaluate.py`: `"*"` is a wildcard; a non-string
matcher equals no tool name. -/
def tool_matches (tool : String) (matcher : Json) : Bool :=
  match matcher with
  | .str m => m = "*" || tool = m
  | _ => false

/-- `str.replace` (simple, non-overlapping, left to right). The fuel is the
length of the scanned text, which one replacement step always consumes, so
the wrapper below never exhausts it. -/
def replaceAllF : Nat → List Char → List Char → List Char → List Char
  | 0, _, _, l => l
  | fuel + 1, pat, rep, l =>
      match l with
      | [] => []
      | c :: cs =>
          match matchCS pat (c :: cs) with
          | some rest => rep ++ replaceAllF fuel pat rep rest
          | none => c :: replaceAllF fuel pat rep cs

def replaceAll (pat rep l : List Char) : List Char := replaceAllF l.length pat rep l

/-- The `${VAR}` substitution loop of `path_prefix_any`. -/
def substEnv (env : List (String × String)) (s : String) : String :=
  env.foldl
    (fun acc kv => String.mk (replaceAll ("$\x7b" ++ kv.1 ++ "\x7d").data kv.2.data acc.data))
    s

/-- `path_prefix_any` from `evaluate.py`: `path` is `None` when the argument
was not a string. -/
def path_prefix_any (path : Option String) (prefixes : List Json)
    (env : List (String × String)) : Bool :=
  match path with
  | none => false
  | some p =>
      if p = "" then false
      else
        prefixes.any (fun pref =>
          let prefS := substEnv env (pyStr pref)
          strStarts (lcStr prefS) (lcStr p))

mutual
/-- The value written for key `k` by one `merge_obligations` step: recursive
merge when both sides are mappings, otherwise the source value wins. -/
def mergeVal (x : Option Json) (v : Json) : Json :=
  match x, v with
  | some (.obj d2), .obj s2 => Json.obj (mergeObligations d2 s2)
  | _, _ => v

/-- `merge_obligations` from `evaluate.py`: deep merge, right side wins on
non-mapping collisions, mappings merge recursively; keys new to `dst` are
appended in `src` order. -/
def mergeObligations (dst : Dict) : Dict → Dict
  | .nil => dst
  | .cons k v tl => mergeObligations (setKey dst k (mergeVal (getVal dst k) v)) tl
end

/-- `match_when` from `evaluate.py`. -/
def match_when (when : Json) (tool risk : String) (classifications : List String)
    (decision : String) : Except String Bool := do
  if !when.truthy then return true
  if (← pyContains "tool" when) then
    if !(tool_matches tool (← pyIndex when "tool")) then return false
  if (← pyContains "tool_any_of" when) then
    let xs ← pyList (← pyIndex when "tool_any_of")
    if !((xs.map pyStr).contains tool) then return false
  if (← pyContains "risk_at_least" when) then
    if !(← risk_ge risk (pyStr (← pyIndex when "risk_at_least"))) then return false
  if (← pyContains "classification_any_of" when) then
    let xs ← pyList (← pyIndex when "classification_any_of")
    if !((xs.map pyStr).any (fun w => classifications.contains w)) then return false
  if (← pyContains "decision" when) then
    if pyStr (← pyIndex when "decision") ≠ decision then return false
  return true

/-- Running state of the `for rule in rules` loop in `evaluate_rules`. -/
structure RState where
  decision : String
  obligations : Dict
  matched : List String
  reason : Option String
deriving DecidableEq

/-- The `allow_if`/`otherwise` gating block of the rule loop
(`evaluate.py` lines 139-154): returns `some st2` when the rule has a
`path_prefix_any` exemption that fails (the loop then `continue`s with the
raised decision), `none` when processing falls through to the obligations
and action steps. -/
def applyGate (args : Dict) (env : List (String × String)) (rule : Json)
    (st : RState) (matched1 : List String) (rid : String) :
    Except String (Option RState) := do
  if !(← pyContains "allow_if" rule) then return none
  let allowIf := pyOr (← pyGet rule "allow_if") (.obj .nil)
  let p := pyOr (dictGet args "path") (dictGet args "file_path")
  if !(← pyContains "path_prefix_any" allowIf) then return none
  let prefixes ← pyList (← pyIndex allowIf "path_prefix_any")
  if path_prefix_any (strOpt p) prefixes env then return none
  let otherwise := pyOr (← pyGet rule "otherwise") (.obj .nil)
  let act := pyStr (pyOr (← pyGet otherwise "action") (.str "confirm"))
  let d2 ← max_decision st.decision act
  let reason1 := if act = "deny" && st.reason.isNone then some rid else st.reason
  let dOrd ← orderOf d2
  let confOrd ← orderOf "confirm"
  let reason2 :=
    if act = "confirm" && reason1.isNone && dOrd = confOrd then some rid else reason1
  return some { decision := d2, obligations := st.obligations,
                matched := matched1, reason := reason2 }

/-- The obligations / allow_override / action block of the rule loop
(`evaluate.py` lines 156-169). -/
def applyRest (rule : Json) (st : RState) (matched1 : List String)
    (rid : String) : Except String RState := do
  let ob1 ← (do
    if (← pyContains "require" rule) then
      match (← pyIndex rule "require") with
      | .obj req => pure (mergeObligations st.obligations req)
      | _ => pure st.obligations
    else pure st.obligations)
  let ob2 ← (do
    if (← pyContains "allow_override" rule) then
      match (← pyIndex rule "allow_override") with
      | .obj ao => pure (mergeObligations ob1 (JPairs.cons "allow_override" (Json.obj ao) .nil))
      | _ => pure ob1
    else pure ob1)
  let act := pyStr (pyOr (← pyGet rule "action") (.str "allow"))
  let d2 ← max_decision st.decision act
  let reason2 :=
    if st.reason.isNone && (act = "deny" || act = "confirm") then some rid else st.reason
  return { decision := d2, obligations := ob2, matched := matched1, reason := reason2 }

/-- One iteration of the rule loop in `evaluate_rules`, block by block in
source order. -/
def ruleStep (tool : String) (args : Dict) (risk : String)
    (classifications : List String) (env : List (String × String))
    (st : RState) (rule : Json) : Except String RState := do
  let rid := pyStr (pyOr (← pyGet rule "id") (.str ""))
  let when := pyOr (← pyGet rule "when") (.obj .nil)
  if !(← match_when when tool risk classifications st.decision) then return st
  let matched1 := st.matched ++ [rid]
  match (← applyGate args env rule st matched1 rid) with
  | some st2 => pure st2
  | none => applyRest rule st matched1 rid

/-- The rule loop of `evaluate_rules`. -/
def runRules (tool : String) (args : Dict) (risk : String)
    (classifications : List String) (env : List (String × String)) :
    RState → List Json → Except String RState
  | st, [] => .ok st
  | st, r :: rs => do
      let st2 ← ruleStep tool args risk classifications env st r
      runRules tool args risk classifications env st2 rs

/-- `evaluate_rules` from `evaluate.py`. -/
def evaluate_rules (constitution : Json) (tool : String) (args : Dict)
    (risk : String) (classifications : List String) (decision : String)
    (env : List (String × String)) : Except String RState := do
  let rulesJ := pyOr (← pyGet constitution "rules") (.arr .nil)
  let rules ← pyList rulesJ
  runRules tool args risk classifications env
    { decision := decision, obligations := .nil, matched := [], reason := none } rules

/-- The printed result record of `evaluate.py` (`out` in `main`). -/
structure EvalOut where
  decision : String
  reason_code : Option String
  risk : String
  classifications : List String
  obligations : Dict
  scope_hash : Option String
  matched_rules : List String
deriving DecidableEq

/-- `reason1 or reason2` on optional strings (an empty string is falsy). -/
def pyOrReason (a b : Option String) : Option String :=
  match a with
  | some s => if s ≠ "" then some s else b
  | none => b

/-- Keep the first occurrence of each string (`set(...)` before sorting). -/
def dedupStr : List String → List String
  | [] => []
  | x :: xs =>
      let r := dedupStr xs
      if r.contains x then r else x :: r

/-- The scope-hash payload dict of `evaluate.py` `main`, in source order. -/
def scopePayload (tool : String) (args : Dict) (docHash : Json) (version : String) : Json :=
  Json.obj (JPairs.ofList
    [("tool", .str tool), ("args", .obj args),
     ("constitution_doc_hash", docHash), ("policy_engine_version", .str version)])

/-- `"sha256:" + hashlib.sha256(c14n_json(payload)).hexdigest()`. -/
def scopeHashStr (tool : String) (args : Dict) (docHash : Json) (version : String) : String :=
  "sha256:" ++ hexStr (sha256 (c14nJson (scopePayload tool args docHash version)))

/-- `main` from `evaluate.py`, after argument parsing: the pure evaluation
pipeline from the parsed constitution, tool, args, intent, session kind,
environment and engine version to the printed result. -/
def mainEval (constitution : Json) (tool : String) (args : Dict)
    (intent : Option Dict) (sessionKind : String) (env : List (String × String))
    (version : String) : Except String EvalOut := do
  let classified ← classify tool args constitution sessionKind intent
  let risk := classified.risk.name
  let classifications := sortStrings classified.tags
  let defaults := pyOr (← pyGet constitution "defaults") (.obj .nil)
  let basePolicy := pyStr (pyOr (← pyGet defaults "tool_policy") (.str "confirm"))
  let r1 ← evaluate_rules constitution tool args risk classifications basePolicy env
  let r2 ← evaluate_rules constitution tool args risk classifications r1.decision env
  let finalDecision ← max_decision r1.decision r2.decision
  let obligations := mergeObligations (mergeObligations .nil r1.obligations) r2.obligations
  let reasonCode := pyOrReason r1.reason r2.reason
  let scopeHash ← (do
    if finalDecision = "confirm" then
      let dh ← pyGet constitution "doc_hash"
      pure (some (scopeHashStr tool args dh version))
    else pure none)
  pure { decision := finalDecision, reason_code := reasonCode, risk := risk,
         classifications := classifications, obligations := obligations,
         scope_hash := scopeHash,
         matched_rules := sortStrings (dedupStr (r1.matched ++ r2.matched)) }

/-- Reduction lemmas for `Except` binds (used to unfold the embedded
do-notation in proofs). -/
@[simp] theorem ok_bind {α β : Type} (a : α) (f : α → Except String β) :
    (Except.ok a >>= f) = f a := rfl

@[simp] theorem error_bind {α β : Type} (e : String) (f : α → Except String β) :
    ((Except.error e : Except String α) >>= f) = Except.error e := rfl

/-! ### `verify.py`: hash check, then Ed25519 -/

/-- Base64 alphabet value of a character. -/
def b64CharVal (c : Char) : Option Nat :=
  let n := c.toNat
  if 65 ≤ n && n ≤ 90 then some (n - 65)
  else if 97 ≤ n && n ≤ 122 then some (n - 97 + 26)
  else if 48 ≤ n && n ≤ 57 then some (n - 48 + 52)
  else if c = '+' then some 62
  else if c = '/' then some 63
  else none

/-- Decode groups of four 6-bit values into bytes (a final group of two or
three values is a padded tail). -/
def b64Groups : List Nat → List Nat
  | a :: b :: c :: d :: rest =>
      (a * 4 + b / 16) :: ((b % 16) * 16 + c / 4) :: ((c % 4) * 64 + d) :: b64Groups rest
  | [a, b] => [a * 4 + b / 16]
  | [a, b, c] => [a * 4 + b / 16, (b % 16) * 16 + c / 4]
  | _ => []

/-- `base64.b64decode` with its default lenient validation: characters
outside the alphabet are discarded, `=` only pads, and a total length that is
not a multiple of four raises `binascii.Error`. -/
def b64decode (s : String) : Except String (List Nat) :=
  let cs := s.data.filter (fun c => (b64CharVal c).isSome)
  let eq := (s.data.filter (fun c => c = '=')).length
  if (cs.length + eq) % 4 ≠ 0 then .error "binascii.Error"
  else .ok (b64Groups (cs.filterMap b64CharVal))

def hexVal (c : Char) : Option Nat :=
  let n := c.toNat
  if 48 ≤ n && n ≤ 57 then some (n - 48)
  else if 97 ≤ n && n ≤ 102 then some (n - 97 + 10)
  else if 65 ≤ n && n ≤ 70 then some (n - 65 + 10)
  else none

def hexDecodeL : List Char → Option (List Nat)
  | [] => some []
  | a :: b :: rest =>
      match hexVal a, hexVal b, hexDecodeL rest with
      | some x, some y, some r => some ((x * 16 + y) :: r)
      | _, _, _ => none
  | [_] => none

/-- `_decode_key` from `verify.py`: hex-first when the string is all hex
digits of length 64 or 128, Base64 otherwise; failures exit the script. -/
def decode_key (s : String) : Except String (List Nat) :=
  let t := pyStrip s
  if t.data.all (fun c => (hexVal c).isSome) && (t.length = 64 || t.length = 128) then
    match hexDecodeL t.data with
    | some bs => .ok bs
    | none => .error "SystemExit"
  else (b64decode t).mapError (fun _ => "SystemExit")

inductive VerifyOutcome where
  | ok | hashMismatch | badSignature
deriving DecidableEq

/-- `doc_hash` as `verify.py` recomputes it from the parsed YAML. -/
def docHashOf (data : Json) : String :=
  "sha256:" ++ hexStr (sha256 (utf8Bytes (encodeJson (sortKeysJson data))))

/-- `sig_obj.get("doc_hash") != doc_hash`, negated: a Python `!=` between a
JSON value and a string is `False` unless the value is that exact string. -/
def recordHashMatches (dh : Json) (docHash : String) : Bool :=
  match dh with
  | .str s => s = docHash
  | _ => false

/-- `main` from `verify.py`, after file loading: `data` is the parsed YAML,
`sigObj` the parsed signature record, `pk` the command-line key string, and
`ed pk msg sig` the external Ed25519 verifier (pynacl `VerifyKey.verify`,
`True` iff the signature checks; any internal failure surfaces as a bad
signature, exactly as the `try/except` in the source). -/
def verifyMain (data : Json) (sigObj : Json) (pk : String)
    (ed : List Nat → List Nat → List Nat → Bool) : Except String VerifyOutcome := do
  let c14n := utf8Bytes (encodeJson (sortKeysJson data))
  let docHashBytes := sha256 c14n
  let docHash := "sha256:" ++ hexStr docHashBytes
  let dh ← pyGet sigObj "doc_hash"
  if !recordHashMatches dh docHash then return .hashMismatch
  let sigVal ← pyIndex sigObj "signature"
  let sigB ← (match sigVal with
    | .str s => b64decode s
    | _ => Except.error "TypeError")
  let pkB ← decode_key pk
  if pkB.length ≠ 32 then Except.error "ValueError"
  else if ed pkB docHashBytes sigB then return .ok
  else return .badSignature

/-! ### `apply_disclosure.py` -/

/-- `apply` from `apply_disclosure.py`: `disclosure` is the
`{mode, text}` record produced by `load_disclosure` (both fields non-empty
strings), or `None`. -/
def applyDisclosure (message : String) (disclosure : Option (String × String)) : String :=
  match disclosure with
  | none => message
  | some (mode, text) =>
      if mode = "append_if_missing" then
        if aiDisclosureHint message then message
        else if pyStrip text ≠ "" && strIn (pyStrip text) message then message
        else message ++ text
      else message

/-! ## Concrete inputs used by the claim theorems -/

/-- A rule with only an id and an action. -/
def mkRule (rid act : String) : Json :=
  Json.obj (JPairs.ofList [("id", Json.str rid), ("action", Json.str act)])

/-- A rule with an id, a `when.decision` matcher and an action. -/
def mkRuleWhenDecision (rid dec act : String) : Json :=
  Json.obj (JPairs.ofList
    [("id", Json.str rid),
     ("when", Json.obj (JPairs.ofList [("decision", Json.str dec)])),
     ("action", Json.str act)])

/-- A constitution with `defaults.tool_policy` and a rule list. -/
def mkConstitution (policy : String) (rules : List Json) : Json :=
  Json.obj (JPairs.ofList
    [("defaults", Json.obj (JPairs.ofList [("tool_policy", Json.str policy)])),
     ("rules", Json.arr (JList.ofList rules))])

/-! ## Claim C1 -/

/-- C1. The claim says evaluation is total and that a constitution that
parses to `null` (absent or empty document) still yields an `EvalResult`
with baseline decision `confirm` and empty obligations. The code disagrees:
`main` in `evaluate.py` reaches `constitution.get("defaults")` with
`constitution = None` and raises `AttributeError` (the classification stage
guards against `None`, the facade does not). An empty *mapping* behaves as
the claim describes, confirming that the crash on `null` is a slip rather
than intent. -/
theorem claim_C1_null_crash :
    mainEval Json.null "read" (JPairs.ofList [("path", Json.str "/tmp/a.txt")])
        none "main" [] "phase1-ref-eval-1" = .error "AttributeError" ∧
    (mainEval (Json.obj .nil) "read" (JPairs.ofList [("path", Json.str "/tmp/a.txt")])
        none "main" [] "phase1-ref-eval-1").map
      (fun r => (r.decision, r.obligations)) = .ok ("confirm", JPairs.nil) := by
  constructor
  · decide
  · decide

/-! ## Claim C5 -/

/-- C5 counterexample. The claim says the sensitive path hints include
`.ssh` as a plain substring and that reading `/home/u/.ssh/config` has
argument risk `high`. The code's hint is the literal `\.ssh\` (with
backslashes), which a POSIX path never contains, so the argument risk is
`medium`. -/
theorem claim_C5_counterexample :
    arg_risk "read" (JPairs.ofList [("path", Json.str "/home/u/.ssh/config")]) =
      .ok Risk.medium ∧ Risk.medium ≠ Risk.high := by
  constructor
  · decide
  · decide

/-- C5 amended. For the file tools `read`, `write` and `edit` the argument
risk is `high` exactly when the path argument (`args.path`, falling back to
`args.file_path`) is a string whose lowercasing contains one of
`\appdata\`, `\.ssh\`, `id_rsa`, `id_ed25519`, `password`, `secrets`,
`token` (the first two hints carry literal backslashes, so they only match
Windows-style separators); in every other case — including
`/home/u/.ssh/config` — it is `medium`. -/
theorem claim_C5_amended (tool : String) (args : Dict)
    (h : ["read", "write", "edit"].contains tool = true) :
    arg_risk tool args =
      .ok (match pyOr (dictGet args "path") (dictGet args "file_path") with
           | .str p =>
               if ["\\appdata\\", "\\.ssh\\", "id_rsa", "id_ed25519",
                   "password", "secrets", "token"].any (fun hint => strIn hint (lcStr p)) then
                 Risk.high
               else Risk.medium
           | _ => Risk.medium) := by
  have htool : tool = "read" ∨ tool = "write" ∨ tool = "edit" := by
    simpa using h
  have key : ∀ p : String,
      SENSITIVE_PATH_HINTS.any (fun hint => strIn (lcStr hint) (lcStr p)) =
      ["\\appdata\\", "\\.ssh\\", "id_rsa", "id_ed25519",
       "password", "secrets", "token"].any (fun hint => strIn hint (lcStr p)) := fun _ => rfl
  have expand : ∀ t, t = "read" ∨ t = "write" ∨ t = "edit" → arg_risk t args =
      (match pyOr (dictGet args "path") (dictGet args "file_path") with
        | .str p =>
            if SENSITIVE_PATH_HINTS.any (fun hint => strIn (lcStr hint) (lcStr p)) then
              Except.ok Risk.high
            else Except.ok Risk.medium
        | _ => Except.ok Risk.medium) := by
    rintro t (rfl | rfl | rfl) <;> rfl
  rw [expand tool htool]
  cases hp : pyOr (dictGet args "path") (dictGet args "file_path")
  all_goals dsimp only
  all_goals first | rfl | (rw [key]; split <;> rfl)

theorem claim_C5_witness :
    ["read", "write", "edit"].contains "read" = true ∧
    arg_risk "read" (JPairs.ofList [("path", Json.str "C:\\Users\\u\\.ssh\\id_rsa")]) =
      .ok Risk.high :=
  ⟨by decide,
   (claim_C5_amended "read" (JPairs.ofList [("path", Json.str "C:\\Users\\u\\.ssh\\id_rsa")])
      (by decide)).trans (by decide)⟩

/-! ## Claim C6 -/

/-- C6 counterexample. The claim says every tool whose name begins with
`nodes.` has base risk `high`; but the table only lists three specific
`nodes.*` tools, and the lookup defaults every other name — including
`nodes.gps_get` — to `medium`. -/
theorem claim_C6_counterexample :
    tool_base_risk "nodes.gps_get" = Risk.medium ∧
    strStarts "nodes." "nodes.gps_get" = true ∧ Risk.medium ≠ Risk.high := by
  refine ⟨by decide, by decide, by decide⟩

/-- C6 amended. The base-risk table assigns exactly the tabled defaults
(`message.send` high, `message.broadcast` critical, `read` medium, `write`
and `edit` high, `exec` critical, `web_fetch` and `browser.navigate` medium,
`browser.upload` high, and high for precisely the three listed `nodes.*`
tools `nodes.location_get`, `nodes.camera_snap`, `nodes.screen_record`);
every tool outside the table — including any other `nodes.*` name — gets
`medium`. -/
theorem claim_C6_amended :
    tool_base_risk "message.send" = Risk.high ∧
    tool_base_risk "message.broadcast" = Risk.critical ∧
    tool_base_risk "read" = Risk.medium ∧
    tool_base_risk "write" = Risk.high ∧
    tool_base_risk "edit" = Risk.high ∧
    tool_base_risk "exec" = Risk.critical ∧
    tool_base_risk "web_fetch" = Risk.medium ∧
    tool_base_risk "browser.navigate" = Risk.medium ∧
    tool_base_risk "browser.upload" = Risk.high ∧
    tool_base_risk "nodes.location_get" = Risk.high ∧
    tool_base_risk "nodes.camera_snap" = Risk.high ∧
    tool_base_risk "nodes.screen_record" = Risk.high ∧
    ∀ t, t ∉ TOOL_BASE.map Prod.fst → tool_base_risk t = Risk.medium := by
  refine ⟨by decide, by decide, by decide, by decide, by decide, by decide, by decide,
    by decide, by decide, by decide, by decide, by decide, ?_⟩
  intro t h
  simp only [TOOL_BASE, List.map, List.mem_cons, not_or, List.not_mem_nil] at h
  obtain ⟨h1, h2, h3, h4, h5, h6, h7, h8, h9, h10, h11, h12, -⟩ := h
  simp [tool_base_risk, TOOL_BASE, List.lookup,
    beq_eq_false_iff_ne.mpr h1, beq_eq_false_iff_ne.mpr h2, beq_eq_false_iff_ne.mpr h3,
    beq_eq_false_iff_ne.mpr h4, beq_eq_false_iff_ne.mpr h5, beq_eq_false_iff_ne.mpr h6,
    beq_eq_false_iff_ne.mpr h7, beq_eq_false_iff_ne.mpr h8, beq_eq_false_iff_ne.mpr h9,
    beq_eq_false_iff_ne.mpr h10, beq_eq_false_iff_ne.mpr h11, beq_eq_false_iff_ne.mpr h12]

theorem claim_C6_witness :
    "nodes.gps_get" ∉ TOOL_BASE.map Prod.fst ∧
    tool_base_risk "nodes.gps_get" = Risk.medium :=
  ⟨by decide,
   claim_C6_amended.2.2.2.2.2.2.2.2.2.2.2.2 "nodes.gps_get" (by decide)⟩

/-! ## Claim C8 -/

/-- C8. Applying the disclosure obligation
`{mode: "append_if_missing", text: " — sent by an AI assistant."}` to
`"Hello team"` appends the text; applying it again to the result is a no-op
(the result now contains the word `AI`, which matches the disclosure-hint
pattern). -/
theorem claim_C8_disclosure :
    applyDisclosure "Hello team" (some ("append_if_missing", " — sent by an AI assistant.")) =
      "Hello team — sent by an AI assistant." ∧
    applyDisclosure "Hello team — sent by an AI assistant."
        (some ("append_if_missing", " — sent by an AI assistant.")) =
      "Hello team — sent by an AI assistant." := by
  refine ⟨by decide, by decide⟩

/-! ## Claim C3 (counterexample part) -/

def c3Con : Json := mkConstitution "allow" [mkRule "r-confirm" "confirm", mkRule "r-deny" "deny"]

/-- C3 counterexample. Under a baseline of `allow`, the first rule only
contributes `confirm`, the second raises the decision to its final level
`deny` — yet `reason_code` is the FIRST rule's id (`evaluate_rules` records
the first matched rule whose action is `confirm` or `deny` and never
overwrites it), contradicting the claim that the later, level-setting rule
wins. -/
theorem claim_C3_counterexample :
    (mainEval c3Con "t" .nil none "main" [] "v").map
        (fun r => (r.decision, r.reason_code)) = .ok ("deny", some "r-confirm") ∧
    some "r-confirm" ≠ some "r-deny" := by
  refine ⟨by decide, by decide⟩

/-! ## Claim C4 (counterexample part) -/

def c4RuleA : Json := mkRuleWhenDecision "a" "allow" "confirm"

def c4RuleB : Json := mkRuleWhenDecision "b" "allow" "deny"

/-- C4 counterexample. Two constitutions that differ only in the order of
their two rules — both matching on `when.decision == "allow"` — produce
different final decisions (`confirm` vs `deny`): rule matching reads the
running decision, so rule order is not merely reason-code tie-breaking. -/
theorem claim_C4_counterexample :
    [c4RuleA, c4RuleB].Perm [c4RuleB, c4RuleA] ∧
    (mainEval (mkConstitution "allow" [c4RuleA, c4RuleB]) "t" .nil none "main" [] "v").map
        EvalOut.decision = .ok "confirm" ∧
    (mainEval (mkConstitution "allow" [c4RuleB, c4RuleA]) "t" .nil none "main" [] "v").map
        EvalOut.decision = .ok "deny" ∧
    ("confirm" : String) ≠ "deny" := by
  refine ⟨List.Perm.swap c4RuleB c4RuleA [], by decide, by decide, by decide⟩

/-! ## Claim C7 -/

/-- C7. Verification first recomputes the document hash from the
canonicalized YAML; if the record's `doc_hash` differs, it fails with the
hash-mismatch exit without attempting Ed25519 (the result does not depend on
the Ed25519 oracle at all, and in particular not on the signature field);
only when the hashes agree does it decode the signature and key and run
Ed25519, failing with the bad-signature exit when that check fails. -/
theorem claim_C7_verify_order (data sigObj : Json) (pk : String)
    (ed ed2 : List Nat → List Nat → List Nat → Bool) (dh : Json)
    (hdh : pyGet sigObj "doc_hash" = .ok dh) :
    (recordHashMatches dh (docHashOf data) = false →
       verifyMain data sigObj pk ed = .ok .hashMismatch ∧
       verifyMain data sigObj pk ed = verifyMain data sigObj pk ed2) ∧
    (∀ sigStr sigB pkB,
       dh = .str (docHashOf data) →
       pyIndex sigObj "signature" = .ok (.str sigStr) →
       b64decode sigStr = .ok sigB →
       decode_key pk = .ok pkB →
       pkB.length = 32 →
       verifyMain data sigObj pk ed =
         .ok (if ed pkB (sha256 (utf8Bytes (encodeJson (sortKeysJson data)))) sigB
              then .ok else .badSignature)) := by
  constructor
  · intro hfalse
    simp only [docHashOf] at hfalse
    constructor
    · unfold verifyMain
      rw [hdh]
      simp only [ok_bind, hfalse]
      rfl
    · unfold verifyMain
      rw [hdh]
      simp only [ok_bind, hfalse]
      rfl
  · rintro sigStr sigB pkB rfl hsig hb64 hkey hlen
    unfold verifyMain
    rw [hdh]
    simp only [ok_bind, docHashOf, recordHashMatches]
    rw [hsig]
    simp only [ok_bind, hb64, hkey, hlen]
    simp
    split <;> rfl

def c7SigObj : Json := Json.obj (JPairs.ofList [("doc_hash", Json.str "sha256:not-the-hash")])

theorem claim_C7_witness :
    pyGet c7SigObj "doc_hash" = .ok (Json.str "sha256:not-the-hash") ∧
    recordHashMatches (Json.str "sha256:not-the-hash") (docHashOf Json.null) = false ∧
    verifyMain Json.null c7SigObj "" (fun _ _ _ => true) = .ok .hashMismatch ∧
    verifyMain Json.null c7SigObj "" (fun _ _ _ => true) =
      verifyMain Json.null c7SigObj "" (fun _ _ _ => false) :=
  ⟨by decide, by decide,
   ((claim_C7_verify_order Json.null c7SigObj "" (fun _ _ _ => true) (fun _ _ _ => false)
       (Json.str "sha256:not-the-hash") (by decide)).1 (by decide)).1,
   ((claim_C7_verify_order Json.null c7SigObj "" (fun _ _ _ => true) (fun _ _ _ => false)
       (Json.str "sha256:not-the-hash") (by decide)).1 (by decide)).2⟩

/-! ## Claim C2 -/

theorem bind_eq_ok {α β : Type} {x : Except String α} {f : α → Except String β} {b : β} :
    (x >>= f) = .ok b ↔ ∃ a, x = .ok a ∧ f a = .ok b := by
  cases x <;> simp [Bind.bind, Except.bind]

/-- C2. For every constitution and call on which evaluation succeeds, the
result's `scope_hash` is non-null exactly when the final decision is
`confirm`; and when present it is `"sha256:" + hex(SHA256(canonical JSON of
{tool, args, constitution_doc_hash, policy_engine_version}))` — that is,
`scopeHashStr` applied to the tool, the args, the constitution's own
`doc_hash` field and the engine version. -/
theorem claim_C2_scope_hash (c : Json) (tool : String) (args : Dict)
    (intent : Option Dict) (sk : String) (env : List (String × String)) (ver : String)
    (r : EvalOut) (h : mainEval c tool args intent sk env ver = .ok r) :
    (r.scope_hash.isSome ↔ r.decision = "confirm") ∧
    (r.decision = "confirm" →
      ∃ dh, pyGet c "doc_hash" = .ok dh ∧
        r.scope_hash = some (scopeHashStr tool args dh ver)) := by
  unfold mainEval at h
  obtain ⟨cls, hc, h⟩ := bind_eq_ok.mp h
  obtain ⟨dflt, hd, h⟩ := bind_eq_ok.mp h
  obtain ⟨tp, htp, h⟩ := bind_eq_ok.mp h
  obtain ⟨r1, h1, h⟩ := bind_eq_ok.mp h
  obtain ⟨r2, h2, h⟩ := bind_eq_ok.mp h
  obtain ⟨fd, hfd, h⟩ := bind_eq_ok.mp h
  obtain ⟨sh, hsh, h⟩ := bind_eq_ok.mp h
  have hr : r = { decision := fd,
                  reason_code := pyOrReason r1.reason r2.reason,
                  risk := cls.risk.name,
                  classifications := sortStrings cls.tags,
                  obligations := mergeObligations (mergeObligations .nil r1.obligations) r2.obligations,
                  scope_hash := sh,
                  matched_rules := sortStrings (dedupStr (r1.matched ++ r2.matched)) } := by
    cases h; rfl
  subst hr
  by_cases hfc : fd = "confirm"
  · subst hfc
    rw [if_pos rfl] at hsh
    obtain ⟨dh, hdh, hp⟩ := bind_eq_ok.mp hsh
    have hshv : sh = some (scopeHashStr tool args dh ver) := by cases hp; rfl
    subst hshv
    exact ⟨by simp, fun _ => ⟨dh, hdh, rfl⟩⟩
  · rw [if_neg hfc] at hsh
    have hshv : sh = none := by cases hsh; rfl
    subst hshv
    exact ⟨by simp [hfc], fun hcontra => absurd hcontra hfc⟩

def c2res : EvalOut :=
  match mainEval (Json.obj .nil) "t" .nil none "main" [] "v" with
  | .ok r => r
  | .error _ => { decision := "", reason_code := none, risk := "",
                  classifications := [], obligations := .nil,
                  scope_hash := none, matched_rules := [] }

set_option maxRecDepth 100000 in
theorem claim_C2_witness :
    mainEval (Json.obj .nil) "t" .nil none "main" [] "v" = .ok c2res ∧
    ((c2res.scope_hash.isSome ↔ c2res.decision = "confirm") ∧
     (c2res.decision = "confirm" →
       ∃ dh, pyGet (Json.obj .nil) "doc_hash" = .ok dh ∧
         c2res.scope_hash = some (scopeHashStr "t" .nil dh "v"))) :=
  ⟨by decide,
   claim_C2_scope_hash (Json.obj .nil) "t" .nil none "main" [] "v" c2res (by decide)⟩


/-! ## Claim C10 -/

theorem ppa_no_path (p : Json) (prefixes : List Json) (env : List (String × String))
    (h : ∀ s, p = .str s → s = "") :
    path_prefix_any (strOpt p) prefixes env = false := by
  cases p <;> first
    | rfl
    | (rename_i s; have hs := h s rfl; subst hs; rfl)

theorem claim_C10_gate_failure (tool : String) (args : Dict) (risk : String)
    (cls : List String) (env : List (String × String)) (st : RState) (rule : Json)
    (idv whv aiv ppv othv actv : Json) (prefixes : List Json) (d2 : String)
    (hid : pyGet rule "id" = .ok idv)
    (hwhen : pyGet rule "when" = .ok whv)
    (hmatch : match_when (pyOr whv (.obj .nil)) tool risk cls st.decision = .ok true)
    (hai : pyContains "allow_if" rule = .ok true)
    (haiv : pyGet rule "allow_if" = .ok aiv)
    (hppa : pyContains "path_prefix_any" (pyOr aiv (.obj .nil)) = .ok true)
    (hidx : pyIndex (pyOr aiv (.obj .nil)) "path_prefix_any" = .ok ppv)
    (hlist : pyList ppv = .ok prefixes)
    (hpath : ∀ s, pyOr (dictGet args "path") (dictGet args "file_path") = .str s → s = "")
    (hoth : pyGet rule "otherwise" = .ok othv)
    (hact : pyGet (pyOr othv (.obj .nil)) "action" = .ok actv)
    (hmax : max_decision st.decision (pyStr (pyOr actv (.str "confirm"))) = .ok d2) :
    path_prefix_any (strOpt (pyOr (dictGet args "path") (dictGet args "file_path")))
        prefixes env = false ∧
    ∃ st2, ruleStep tool args risk cls env st rule = .ok st2 ∧
      st2.decision = d2 ∧
      st2.obligations = st.obligations ∧
      st2.matched = st.matched ++ [pyStr (pyOr idv (.str ""))] := by
  have hppafalse := ppa_no_path (pyOr (dictGet args "path") (dictGet args "file_path"))
    prefixes env hpath
  refine ⟨hppafalse, ?_⟩
  obtain ⟨x, hx, hmax1⟩ := bind_eq_ok.mp hmax
  obtain ⟨y, hy, hmax2⟩ := bind_eq_ok.mp hmax1
  have hd2 : d2 = if x ≥ y then st.decision else pyStr (pyOr actv (.str "confirm")) := by
    cases hmax2; rfl
  have hord : orderOf d2 = .ok (if x ≥ y then x else y) := by
    rw [hd2]
    by_cases hxy : x ≥ y
    · rw [if_pos hxy, if_pos hxy]; exact hx
    · rw [if_neg hxy, if_neg hxy]; exact hy
  set rid := pyStr (pyOr idv (.str "")) with hrid
  have hgate : ∃ stG, applyGate args env rule st (st.matched ++ [rid]) rid =
      .ok (some stG) ∧ stG.decision = d2 ∧ stG.obligations = st.obligations ∧
      stG.matched = st.matched ++ [rid] := by
    unfold applyGate
    rw [hai]
    simp only [ok_bind]
    rw [if_neg (by decide)]
    rw [haiv]
    simp only [ok_bind]
    rw [hppa]
    simp only [ok_bind]
    rw [if_neg (by decide)]
    rw [hidx]
    simp only [ok_bind]
    rw [hlist]
    simp only [ok_bind]
    rw [hppafalse]
    rw [if_neg (by decide)]
    rw [hoth]
    simp only [ok_bind]
    rw [hact]
    simp only [ok_bind]
    rw [hmax]
    simp only [ok_bind]
    rw [hord]
    simp only [ok_bind]
    exact ⟨_, rfl, rfl, rfl, rfl⟩
  obtain ⟨stG, hgateEq, hdec, hob, hm⟩ := hgate
  refine ⟨stG, ?_, hdec, hob, hm⟩
  unfold ruleStep
  rw [hid, hwhen]
  simp only [ok_bind]
  rw [hmatch]
  simp only [ok_bind]
  rw [if_neg (by decide)]
  rw [hgateEq]
  simp only [ok_bind]
  rfl

def c10Rule : Json := Json.obj (JPairs.ofList
  [("id", Json.str "ws-only"),
   ("allow_if", Json.obj (JPairs.ofList
     [("path_prefix_any", Json.arr (JList.ofList [Json.str "/ws/"]))]))])

def c10St : RState := { decision := "allow", obligations := .nil, matched := [], reason := none }

theorem claim_C10_witness :
    pyContains "allow_if" c10Rule = .ok true ∧
    pyContains "path_prefix_any"
      (pyOr (dictGet (JPairs.ofList
        [("id", Json.str "ws-only"),
         ("allow_if", Json.obj (JPairs.ofList
           [("path_prefix_any", Json.arr (JList.ofList [Json.str "/ws/"]))]))]) "allow_if")
        (.obj .nil)) = .ok true ∧
    (∃ st2, ruleStep "t" .nil "medium" [] [] c10St c10Rule = .ok st2 ∧
      st2.decision = "confirm" ∧ st2.obligations = c10St.obligations ∧
      st2.matched = c10St.matched ++ ["ws-only"]) := by
  refine ⟨by decide, by decide, ?_⟩
  obtain ⟨st2, hstep, hdec, hob, hm⟩ :=
    (claim_C10_gate_failure "t" .nil "medium" [] [] c10St c10Rule
      (Json.str "ws-only") Json.null
      (Json.obj (JPairs.ofList [("path_prefix_any", Json.arr (JList.ofList [Json.str "/ws/"]))]))
      (Json.arr (JList.ofList [Json.str "/ws/"]))
      Json.null Json.null [Json.str "/ws/"] "confirm"
      (by decide) (by decide) (by decide) (by decide) (by decide) (by decide)
      (by decide) (by decide) (by intro s hs; cases hs) (by decide) (by decide) (by decide)).2
  exact ⟨st2, hstep, hdec, hob, hm.trans (by decide)⟩


/-! ## Claim C9 -/

theorem mem_addTag {a t : String} {l : List String} :
    a ∈ addTag t l ↔ a = t ∨ a ∈ l := by
  unfold addTag
  split
  · rename_i hc
    have ht : t ∈ l := by simpa using hc
    constructor
    · exact fun h => Or.inr h
    · rintro (rfl | h) <;> [exact ht; exact h]
  · simp

/-- The two tags no individual check emits directly. -/
def goodTags (l : List String) : Prop :=
  "constitutionally_prohibited" ∉ l ∧ "harm_physical" ∉ l

theorem goodTags_nil : goodTags [] := by constructor <;> simp

theorem goodTags_addTag {t : String} {l : List String}
    (h1 : t ≠ "constitutionally_prohibited") (h2 : t ≠ "harm_physical")
    (hg : goodTags l) : goodTags (addTag t l) := by
  constructor
  · rw [mem_addTag]; rintro (rfl | h) <;> [exact h1 rfl; exact hg.1 h]
  · rw [mem_addTag]; rintro (rfl | h) <;> [exact h2 rfl; exact hg.2 h]

theorem goodTags_hidden (intent : Option Dict) : goodTags (hiddenActionTags intent) := by
  unfold hiddenActionTags
  rcases intent with _ | d
  · exact goodTags_nil
  · dsimp only
    split
    · exact goodTags_addTag (by decide) (by decide) goodTags_nil
    · exact goodTags_nil

theorem goodTags_pathStage (tool : String) (args : Dict) (intent : Option Dict)
    {tags : List String} (hg : goodTags tags) :
    goodTags (pathStage tool args intent tags).1 := by
  unfold pathStage
  split
  · split
    · dsimp only
      split
      · split
        · exact goodTags_addTag (by decide) (by decide) hg
        · exact hg
      · exact hg
    · exact hg
  · exact hg

theorem goodTags_egressStage (allowlist domains : List String)
    {tags : List String} (details : Dict) (hg : goodTags tags) :
    goodTags (egressStage allowlist domains tags details).1 := by
  unfold egressStage
  split
  · exact hg
  · split
    · exact hg
    · split
      · exact goodTags_addTag (by decide) (by decide) hg
      · exact hg

theorem goodTags_messagingStage (tool : String) (args : Dict)
    {tags : List String} (details : Dict) (hg : goodTags tags) :
    goodTags (messagingStage tool args tags details).1 := by
  unfold messagingStage
  have step : ∀ t1, goodTags t1 →
      goodTags (if reputationalHit (pyStr (pyOr (dictGet args "message") (.str ""))) then
        addTag "harm_reputational" t1 else t1) := by
    intro t1 h1
    split
    · exact goodTags_addTag (by decide) (by decide) h1
    · exact h1
  dsimp only
  split
  · split
    · apply step
      split
      · exact goodTags_addTag (by decide) (by decide) hg
      · exact hg
    · exact hg
  · exact hg

theorem goodTags_execStage (tool : String) (args : Dict)
    {tags : List String} (details : Dict) {p : List String × Dict}
    (h : execStage tool args tags details = .ok p) (hg : goodTags tags) :
    goodTags p.1 := by
  unfold execStage at h
  split at h
  · obtain ⟨cmd, hcmd, hp⟩ := bind_eq_ok.mp h
    cases hp
    dsimp only
    split
    · exact goodTags_addTag (by decide) (by decide) hg
    · exact hg
  · cases h
    exact hg

theorem promote_iff (l : List String) (hg : goodTags l) :
    ("constitutionally_prohibited" ∈ promoteStage l ↔
      ("impersonation" ∈ promoteStage l ∨ "harm_financial" ∈ promoteStage l ∨
       "harm_physical" ∈ promoteStage l ∨ "harm_reputational" ∈ promoteStage l)) ∧
    "harm_physical" ∉ promoteStage l := by
  unfold promoteStage
  by_cases hany : (["impersonation", "harm_financial", "harm_physical",
      "harm_reputational"].any (fun t => l.contains t)) = true
  · rw [if_pos hany]
    have hone : "impersonation" ∈ l ∨ "harm_financial" ∈ l ∨
        "harm_physical" ∈ l ∨ "harm_reputational" ∈ l := by
      simpa using hany
    constructor
    · constructor
      · intro _
        rcases hone with h | h | h | h
        · exact Or.inl (mem_addTag.mpr (Or.inr h))
        · exact Or.inr (Or.inl (mem_addTag.mpr (Or.inr h)))
        · exact Or.inr (Or.inr (Or.inl (mem_addTag.mpr (Or.inr h))))
        · exact Or.inr (Or.inr (Or.inr (mem_addTag.mpr (Or.inr h))))
      · intro _
        exact mem_addTag.mpr (Or.inl rfl)
    · intro hmem
      rcases mem_addTag.mp hmem with h | h
      · exact absurd h (by decide)
      · exact hg.2 h
  · rw [if_neg hany]
    have hnone : ¬ ("impersonation" ∈ l ∨ "harm_financial" ∈ l ∨
        "harm_physical" ∈ l ∨ "harm_reputational" ∈ l) := by
      simpa using hany
    exact ⟨⟨fun hcp => absurd hcp hg.1, fun hor => absurd hor hnone⟩, hg.2⟩

theorem claim_C9_prohibited (tool : String) (args : Dict) (c : Json)
    (sk : String) (intent : Option Dict) (cls : Classified)
    (h : classify tool args c sk intent = .ok cls) :
    ("constitutionally_prohibited" ∈ cls.tags ↔
      ("impersonation" ∈ cls.tags ∨ "harm_financial" ∈ cls.tags ∨
       "harm_physical" ∈ cls.tags ∨ "harm_reputational" ∈ cls.tags)) ∧
    "harm_physical" ∉ cls.tags := by
  unfold classify at h
  obtain ⟨rk, hrk, h⟩ := bind_eq_ok.mp h
  obtain ⟨al, hal, h⟩ := bind_eq_ok.mp h
  obtain ⟨td, htd, h⟩ := bind_eq_ok.mp h
  have hg : goodTags td.1 :=
    goodTags_execStage tool args _ htd
      (goodTags_messagingStage tool args _
        (goodTags_egressStage al (extractDomains tool args) _
          (goodTags_pathStage tool args intent (goodTags_hidden intent))))
  have hcls : cls.tags = promoteStage td.1 := by cases h; rfl
  rw [hcls]
  exact promote_iff td.1 hg

theorem claim_C9_witness :
    classify "message.send"
        (JPairs.ofList [("message", Json.str "This is Alice from Accounting.")])
        Json.null "main" none =
      .ok { risk := Risk.high,
            tags := ["constitutionally_prohibited", "impersonation"],
            details := JPairs.ofList [("message_len", Json.num 30)] } ∧
    (("constitutionally_prohibited" ∈ ["constitutionally_prohibited", "impersonation"] ↔
       ("impersonation" ∈ (["constitutionally_prohibited", "impersonation"] : List String) ∨
        "harm_financial" ∈ (["constitutionally_prohibited", "impersonation"] : List String) ∨
        "harm_physical" ∈ (["constitutionally_prohibited", "impersonation"] : List String) ∨
        "harm_reputational" ∈ (["constitutionally_prohibited", "impersonation"] : List String))) ∧
     "harm_physical" ∉ (["constitutionally_prohibited", "impersonation"] : List String)) := by
  constructor
  · decide
  · exact claim_C9_prohibited "message.send"
      (JPairs.ofList [("message", Json.str "This is Alice from Accounting.")])
      Json.null "main" none
      { risk := Risk.high,
        tags := ["constitutionally_prohibited", "impersonation"],
        details := JPairs.ofList [("message_len", Json.num 30)] } (by decide)


/-! ## Claim C3 (amended part) -/

theorem applyGate_reason_some (args : Dict) (env : List (String × String))
    (rule : Json) (st : RState) (m1 : List String) (rid : String)
    (stG : RState) (rid0 : String) (hr : st.reason = some rid0)
    (h : applyGate args env rule st m1 rid = .ok (some stG)) :
    stG.reason = some rid0 := by
  unfold applyGate at h
  obtain ⟨b1, hb1, h⟩ := bind_eq_ok.mp h
  cases b1
  · rw [if_pos (by decide)] at h
    exact Option.noConfusion (Except.ok.inj h)
  · rw [if_neg (by decide)] at h
    obtain ⟨u1, hu1, h⟩ := bind_eq_ok.mp h
    obtain ⟨g1, hg1, h⟩ := bind_eq_ok.mp h
    obtain ⟨b2, hb2, h⟩ := bind_eq_ok.mp h
    cases b2
    · rw [if_pos (by decide)] at h
      exact Option.noConfusion (Except.ok.inj h)
    · rw [if_neg (by decide)] at h
      obtain ⟨u2, hu2, h⟩ := bind_eq_ok.mp h
      obtain ⟨ppv, hppv, h⟩ := bind_eq_ok.mp h
      obtain ⟨prefixes, hpre, h⟩ := bind_eq_ok.mp h
      by_cases hok : path_prefix_any
          (strOpt (pyOr (dictGet args "path") (dictGet args "file_path"))) prefixes env = true
      · rw [if_pos hok] at h
        exact Option.noConfusion (Except.ok.inj h)
      · rw [if_neg hok] at h
        obtain ⟨u3, hu3, h⟩ := bind_eq_ok.mp h
        obtain ⟨otv, hotv, h⟩ := bind_eq_ok.mp h
        obtain ⟨actv, hactv, h⟩ := bind_eq_ok.mp h
        obtain ⟨d2, hd2, h⟩ := bind_eq_ok.mp h
        obtain ⟨dOrd, hdo, h⟩ := bind_eq_ok.mp h
        obtain ⟨cOrd, hco, h⟩ := bind_eq_ok.mp h
        have hst := Option.some.inj (Except.ok.inj h)
        subst hst
        simp [hr]

theorem applyRest_reason_some (rule : Json) (st : RState) (m1 : List String)
    (rid : String) (st2 : RState) (rid0 : String) (hr : st.reason = some rid0)
    (h : applyRest rule st m1 rid = .ok st2) :
    st2.reason = some rid0 := by
  unfold applyRest at h
  obtain ⟨ob1, hob1, h⟩ := bind_eq_ok.mp h
  obtain ⟨ob2, hob2, h⟩ := bind_eq_ok.mp h
  obtain ⟨av, hav, h⟩ := bind_eq_ok.mp h
  obtain ⟨d2, hd2, h⟩ := bind_eq_ok.mp h
  have hst := Except.ok.inj h
  subst hst
  simp [hr]

theorem ruleStep_reason_some (tool : String) (args : Dict) (risk : String)
    (cls : List String) (env : List (String × String)) (st : RState) (rule : Json)
    (st2 : RState) (rid0 : String) (hr : st.reason = some rid0)
    (h : ruleStep tool args risk cls env st rule = .ok st2) :
    st2.reason = some rid0 := by
  unfold ruleStep at h
  obtain ⟨idv, hidv, h⟩ := bind_eq_ok.mp h
  obtain ⟨whv, hwhv, h⟩ := bind_eq_ok.mp h
  obtain ⟨mw, hmw, h⟩ := bind_eq_ok.mp h
  cases mw
  · rw [if_pos (by decide)] at h
    cases Except.ok.inj h
    exact hr
  · rw [if_neg (by decide)] at h
    obtain ⟨u1, hu1, h⟩ := bind_eq_ok.mp h
    obtain ⟨g, hg, h⟩ := bind_eq_ok.mp h
    match g, h with
    | some stG, h =>
        cases h
        exact applyGate_reason_some _ _ _ _ _ _ _ _ hr hg
    | none, h =>
        exact applyRest_reason_some _ _ _ _ _ _ hr h

theorem runRules_reason_some (tool : String) (args : Dict) (risk : String)
    (cls : List String) (env : List (String × String)) (rules : List Json)
    (st : RState) (r : RState) (rid0 : String) (hr : st.reason = some rid0)
    (h : runRules tool args risk cls env st rules = .ok r) :
    r.reason = some rid0 := by
  induction rules generalizing st with
  | nil => cases h; exact hr
  | cons rule rest ih =>
      unfold runRules at h
      obtain ⟨st2, hstep, h⟩ := bind_eq_ok.mp h
      exact ih st2 (ruleStep_reason_some _ _ _ _ _ _ _ _ _ hr hstep) h

theorem ruleStep_sets_reason (tool : String) (args : Dict) (risk : String)
    (cls : List String) (env : List (String × String)) (st : RState) (rule : Json)
    (st2 : RState) (idv whv av : Json)
    (hid : pyGet rule "id" = .ok idv)
    (hwhen : pyGet rule "when" = .ok whv)
    (hmatch : match_when (pyOr whv (.obj .nil)) tool risk cls st.decision = .ok true)
    (hai : pyContains "allow_if" rule = .ok false)
    (hav : pyGet rule "action" = .ok av)
    (hact : pyStr (pyOr av (.str "allow")) = "confirm" ∨ pyStr (pyOr av (.str "allow")) = "deny")
    (hnone : st.reason = none)
    (h : ruleStep tool args risk cls env st rule = .ok st2) :
    st2.reason = some (pyStr (pyOr idv (.str ""))) := by
  have hgnone : applyGate args env rule st (st.matched ++ [pyStr (pyOr idv (.str ""))])
      (pyStr (pyOr idv (.str ""))) = .ok none := by
    unfold applyGate
    rw [hai]
    simp only [ok_bind]
    rw [if_pos (by decide)]
    rfl
  unfold ruleStep at h
  rw [hid] at h
  simp only [ok_bind] at h
  rw [hwhen] at h
  simp only [ok_bind] at h
  rw [hmatch] at h
  simp only [ok_bind] at h
  rw [if_neg (by decide)] at h
  simp only [pure_bind] at h
  rw [hgnone] at h
  simp only [ok_bind] at h
  unfold applyRest at h
  obtain ⟨ob1, hob1, h⟩ := bind_eq_ok.mp h
  obtain ⟨ob2, hob2, h⟩ := bind_eq_ok.mp h
  rw [hav] at h
  simp only [ok_bind] at h
  obtain ⟨d2, hd2, h⟩ := bind_eq_ok.mp h
  cases Except.ok.inj h
  dsimp only
  rcases hact with hc | hc <;> simp [hc, hnone]

/-- C3 amended. Within a rule-evaluation pass, `reason_code` is fixed by the
FIRST rule that sets it and is never overwritten by later rules, even by a
rule that raises the decision to its final level: (a) once the running
reason is set, every further rule — and hence the rest of the pass — leaves
it unchanged; (b) a matched rule without an `allow_if` gate sets the reason
to its own id whenever its action is `confirm` or `deny` and no reason is
set yet, regardless of whether that action changed the running decision. -/
theorem claim_C3_amended :
    (∀ (tool : String) (args : Dict) (risk : String) (cls : List String)
       (env : List (String × String)) (rules : List Json) (st r : RState)
       (rid0 : String), st.reason = some rid0 →
       runRules tool args risk cls env st rules = .ok r → r.reason = some rid0) ∧
    (∀ (tool : String) (args : Dict) (risk : String) (cls : List String)
       (env : List (String × String)) (st : RState) (rule : Json) (st2 : RState)
       (idv whv av : Json),
       pyGet rule "id" = .ok idv →
       pyGet rule "when" = .ok whv →
       match_when (pyOr whv (.obj .nil)) tool risk cls st.decision = .ok true →
       pyContains "allow_if" rule = .ok false →
       pyGet rule "action" = .ok av →
       (pyStr (pyOr av (.str "allow")) = "confirm" ∨
        pyStr (pyOr av (.str "allow")) = "deny") →
       st.reason = none →
       ruleStep tool args risk cls env st rule = .ok st2 →
       st2.reason = some (pyStr (pyOr idv (.str "")))) :=
  ⟨fun tool args risk cls env rules st r rid0 =>
      runRules_reason_some tool args risk cls env rules st r rid0,
   fun tool args risk cls env st rule st2 idv whv av =>
      ruleStep_sets_reason tool args risk cls env st rule st2 idv whv av⟩

def c3wSt : RState := { decision := "allow", obligations := .nil, matched := [], reason := some "first" }

def c3wRes : RState :=
  match runRules "t" .nil "medium" [] [] c3wSt [mkRule "r-deny" "deny"] with
  | .ok r => r
  | .error _ => { decision := "", obligations := .nil, matched := [], reason := none }

def c3wSt0 : RState := { decision := "allow", obligations := .nil, matched := [], reason := none }

def c3wRes0 : RState :=
  match ruleStep "t" .nil "medium" [] [] c3wSt0 (mkRule "rA" "confirm") with
  | .ok r => r
  | .error _ => { decision := "", obligations := .nil, matched := [], reason := none }

theorem claim_C3_witness :
    (c3wSt.reason = some "first" ∧
     runRules "t" .nil "medium" [] [] c3wSt [mkRule "r-deny" "deny"] = .ok c3wRes ∧
     c3wRes.reason = some "first") ∧
    (ruleStep "t" .nil "medium" [] [] c3wSt0 (mkRule "rA" "confirm") = .ok c3wRes0 ∧
     c3wRes0.reason = some "rA") :=
  ⟨⟨rfl, by decide,
    claim_C3_amended.1 "t" .nil "medium" [] [] [mkRule "r-deny" "deny"] c3wSt c3wRes
      "first" rfl (by decide)⟩,
   ⟨by decide,
    claim_C3_amended.2 "t" .nil "medium" [] [] c3wSt0 (mkRule "rA" "confirm") c3wRes0
      (Json.str "rA") Json.null (Json.str "confirm")
      (by decide) (by decide) (by decide) (by decide) (by decide)
      (Or.inl (by decide)) rfl (by decide)⟩⟩


/-! ## Claim C4: order-independence of rule evaluation -/

/-- Decision values of the lattice `deny > confirm > allow` (the keys of
`ORDER`). -/
inductive Dc where
  | allow
  | confirm
  | deny
deriving DecidableEq

def Dc.ord : Dc → Nat
  | .allow => 0
  | .confirm => 1
  | .deny => 2

def Dc.str : Dc → String
  | .allow => "allow"
  | .confirm => "confirm"
  | .deny => "deny"

/-- Parse a decision string (the partial inverse of `Dc.str`). -/
def dcOf (s : String) : Option Dc :=
  if s = "allow" then some .allow
  else if s = "confirm" then some .confirm
  else if s = "deny" then some .deny
  else none

/-- The pure content of `max_decision` on valid decision strings. -/
def dmax (a b : Dc) : Dc := if b.ord ≤ a.ord then a else b

/-- Structural induction for `JPairs` (the mutual recursor needs joint
motives; obligation dicts only ever recurse through the pair list). -/
def JPairs.inductionOn {motive : JPairs → Prop} (nil : motive .nil)
    (cons : ∀ k v tl, motive tl → motive (.cons k v tl)) : ∀ p, motive p
  | .nil => nil
  | .cons k v tl => cons k v tl (JPairs.inductionOn nil cons tl)

theorem orderOf_str (d : Dc) : orderOf d.str = .ok d.ord := by
  cases d <;> rfl

theorem max_decision_str (a b : Dc) :
    max_decision a.str b.str = .ok (dmax a b).str := by
  cases a <;> cases b <;> rfl

theorem dmax_left_comm (b a1 a2 : Dc) :
    dmax (dmax b a1) a2 = dmax (dmax b a2) a1 := by
  cases b <;> cases a1 <;> cases a2 <;> rfl

theorem foldl_dmax_perm {l1 l2 : List Dc} (p : l1.Perm l2) :
    ∀ b, l1.foldl dmax b = l2.foldl dmax b := by
  induction p with
  | nil => intro b; rfl
  | cons x _ ih => intro b; exact ih (dmax b x)
  | swap x y l => intro b; simp only [List.foldl]; rw [dmax_left_comm]
  | trans _ _ ih1 ih2 => intro b; rw [ih1, ih2]

theorem dmax_absorb {a b : Dc} (h : b.ord ≤ a.ord) : dmax a b = a := by
  unfold dmax
  rw [if_pos h]

theorem foldl_dmax_le (l : List Dc) : ∀ b : Dc, b.ord ≤ (l.foldl dmax b).ord := by
  induction l with
  | nil => intro b; exact Nat.le_refl _
  | cons x tl ih =>
      intro b
      refine Nat.le_trans ?_ (ih (dmax b x))
      unfold dmax
      split
      · exact Nat.le_refl _
      · exact Nat.le_of_lt (Nat.lt_of_not_le (by assumption))

theorem foldl_dmax_mem_le (l : List Dc) :
    ∀ b : Dc, ∀ x ∈ l, x.ord ≤ (l.foldl dmax b).ord := by
  induction l with
  | nil => intro b x hx; cases hx
  | cons y tl ih =>
      intro b x hx
      cases hx with
      | head =>
          refine Nat.le_trans ?_ (foldl_dmax_le tl (dmax b y))
          unfold dmax
          split
          · assumption
          · exact Nat.le_refl _
      | tail _ hx2 => exact ih (dmax b y) x hx2

theorem foldl_dmax_absorb (l : List Dc) (b : Dc) :
    l.foldl dmax (l.foldl dmax b) = l.foldl dmax b := by
  have key : ∀ (m : Dc), (∀ x ∈ l, x.ord ≤ m.ord) → l.foldl dmax m = m := by
    induction l with
    | nil => intro m _; rfl
    | cons y tl ih =>
        intro m hm
        have hy : dmax m y = m := dmax_absorb (hm y (List.mem_cons_self y tl))
        rw [List.foldl, hy]
        exact ih m (fun x hx => hm x (List.mem_cons_of_mem y hx))
  exact key _ (foldl_dmax_mem_le l b)

/-- Duplicate-free key list. -/
def nodupKeys : List String → Bool
  | [] => true
  | k :: ks => !ks.contains k && nodupKeys ks

theorem getVal_setKey (d : Dict) (k : String) (v : Json) (k2 : String) :
    getVal (setKey d k v) k2 = if k = k2 then some v else getVal d k2 := by
  induction d using JPairs.inductionOn with
  | nil =>
      by_cases h : k = k2 <;> simp [setKey, getVal, h]
  | cons k1 v1 tl ih =>
      by_cases h1 : k1 = k
      · subst h1
        by_cases h2 : k1 = k2 <;> simp [setKey, getVal, h2]
      · by_cases h2 : k1 = k2
        · subst h2
          have hne : ¬ k = k1 := fun he => h1 he.symm
          simp [setKey, getVal, h1, hne]
        · simp [setKey, getVal, h1, h2, ih]

theorem getVal_cons (k1 : String) (v : Json) (tl : JPairs) (k : String) :
    getVal (.cons k1 v tl) k = if k1 = k then some v else getVal tl k := rfl

theorem merge_cons (d : Dict) (k1 : String) (v : Json) (tl : JPairs) :
    mergeObligations d (.cons k1 v tl)
      = mergeObligations (setKey d k1 (mergeVal (getVal d k1) v)) tl := rfl

theorem getVal_merge_notin (s : JPairs) :
    ∀ (d : Dict) (k : String), s.keys.contains k = false →
      getVal (mergeObligations d s) k = getVal d k := by
  induction s using JPairs.inductionOn with
  | nil => intro d k _; rfl
  | cons k1 v tl ih =>
      intro d k hk
      have h1 : (k == k1) = false ∧ tl.keys.contains k = false := by
        simpa [JPairs.keys, List.contains_cons, Bool.or_eq_false_iff] using hk
      have hne : ¬ k1 = k := fun he => absurd (beq_iff_eq.mpr he.symm) (by simp [h1.1])
      rw [merge_cons, ih _ _ h1.2, getVal_setKey, if_neg hne]

theorem getVal_merge (s : JPairs) :
    ∀ (d : Dict) (k : String), nodupKeys s.keys = true →
      getVal (mergeObligations d s) k =
        match getVal s k with
        | none => getVal d k
        | some v => some (mergeVal (getVal d k) v) := by
  induction s using JPairs.inductionOn with
  | nil => intro d k _; rfl
  | cons k1 v tl ih =>
      intro d k hnd
      simp only [JPairs.keys, nodupKeys, Bool.and_eq_true] at hnd
      by_cases hk : k1 = k
      · subst hk
        rw [merge_cons, getVal_merge_notin tl _ _ (by simpa using hnd.1)]
        rw [getVal_setKey, if_pos rfl, getVal_cons, if_pos rfl]
      · rw [merge_cons, ih _ _ hnd.2, getVal_setKey, if_neg hk,
            getVal_cons, if_neg hk]

theorem mergeVal_none (v : Json) : mergeVal none v = v := by
  cases v <;> rfl

theorem getVal_merge_nil (s : JPairs) (k : String) (h : nodupKeys s.keys = true) :
    getVal (mergeObligations .nil s) k = getVal s k := by
  rw [getVal_merge s _ _ h]
  cases hs : getVal s k
  · rfl
  · simp [getVal, mergeVal_none]


/-- Json values with mapping shape. -/
def Json.isObjB : Json → Bool
  | .obj _ => true
  | _ => false

mutual
/-- Deeply duplicate-free keys: every mapping reachable through mapping
values has pairwise distinct keys (every YAML/JSON document satisfies
this). -/
def NDJ : Json → Bool
  | .obj p => nodupKeys p.keys && NDP p
  | _ => true

def NDP : JPairs → Bool
  | .nil => true
  | .cons _ v tl => NDJ v && NDP tl
end

/-- Deeply duplicate-free dictionary. -/
def NDD (p : JPairs) : Bool := NDJ (.obj p)

mutual
/-- Collision-freedom of two values written under the same key: either both
are mappings that are recursively collision-free, or they are equal. -/
def jcompat : Json → Json → Bool
  | .obj a, .obj b => pcompat a b
  | x, y => decide (x = y)

/-- Collision-freedom of two obligation mappings: every key they share
holds collision-free values. -/
def pcompat : JPairs → JPairs → Bool
  | .nil, _ => true
  | .cons k v tl, b =>
      (match getVal b k with
       | some w => jcompat v w
       | none => true) && pcompat tl b
end

/-- Lift a relation on values to optional values (`none` pairs with
`none`). -/
inductive ORel (R : Json → Json → Prop) : Option Json → Option Json → Prop where
  | none : ORel R none none
  | some : ∀ {v w : Json}, R v w → ORel R (some v) (some w)

/-- Equality of JSON values as nested unordered mappings: mappings are
compared by key lookup (recursively), everything else by equality. -/
inductive Jeq : Json → Json → Prop where
  | base : ∀ {x y : Json}, Json.isObjB x = false → x = y → Jeq x y
  | obj : ∀ {a b : JPairs},
      (∀ k, ORel Jeq (getVal a k) (getVal b k)) → Jeq (.obj a) (.obj b)

/-- Equality of two dictionaries as nested unordered mappings. -/
def PJeq (a b : JPairs) : Prop := ∀ k, ORel Jeq (getVal a k) (getVal b k)

theorem Jeq.objIntro {a b : JPairs} (h : PJeq a b) : Jeq (.obj a) (.obj b) :=
  Jeq.obj h

theorem getVal_lt : ∀ (p : JPairs) (k : String) (v : Json),
    getVal p k = some v → sizeOf v < sizeOf p := by
  intro p
  induction p using JPairs.inductionOn with
  | nil => intro k v h; cases h
  | cons k1 v1 tl ih =>
      intro k v h
      rw [getVal_cons] at h
      by_cases hk : k1 = k
      · rw [if_pos hk] at h
        cases h
        simp only [JPairs.cons.sizeOf_spec]
        omega
      · rw [if_neg hk] at h
        have := ih k v h
        simp only [JPairs.cons.sizeOf_spec]
        omega

theorem sizeOf_obj (a : JPairs) : sizeOf (Json.obj a) = 1 + sizeOf a := by
  simp [Json.obj.sizeOf_spec]

theorem Jeq_refl_aux : ∀ (n : Nat) (x : Json), sizeOf x ≤ n → Jeq x x := by
  intro n
  induction n with
  | zero => intro x hx; cases x <;> simp at hx
  | succ n ih =>
      intro x hx
      match x with
      | .obj a =>
          refine Jeq.obj (fun k => ?_)
          cases hv : getVal a k with
          | none => exact ORel.none
          | some v =>
              refine ORel.some (ih v ?_)
              have h1 := getVal_lt a k v hv
              have h2 := sizeOf_obj a
              omega
      | .null => exact Jeq.base rfl rfl
      | .bool b => exact Jeq.base rfl rfl
      | .num m => exact Jeq.base rfl rfl
      | .str t => exact Jeq.base rfl rfl
      | .arr xs => exact Jeq.base rfl rfl

theorem Jeq_refl (x : Json) : Jeq x x := Jeq_refl_aux (sizeOf x) x (Nat.le_refl _)

theorem ORel_none_left {R : Json → Json → Prop} {o : Option Json}
    (h : ORel R none o) : o = none := by
  cases h
  rfl

theorem ORel_some_left {R : Json → Json → Prop} {v : Json} {o : Option Json}
    (h : ORel R (some v) o) : ∃ w, o = some w ∧ R v w := by
  cases h with
  | some hr => exact ⟨_, rfl, hr⟩

theorem Jeq_symm_aux : ∀ (n : Nat) (x y : Json), sizeOf x ≤ n → Jeq x y → Jeq y x := by
  intro n
  induction n with
  | zero => intro x y hx _; cases x <;> simp at hx
  | succ n ih =>
      intro x y hx h
      cases h with
      | base hno he => exact Jeq.base (he ▸ hno) he.symm
      | obj hf =>
          rename_i a b
          refine Jeq.obj (fun k => ?_)
          cases hg : getVal a k with
          | none =>
              have hb : getVal b k = none := ORel_none_left (hg ▸ hf k)
              rw [hb]
              exact ORel.none
          | some v =>
              obtain ⟨w, hb, hvw⟩ := ORel_some_left (hg ▸ hf k)
              rw [hb]
              refine ORel.some (ih v w ?_ hvw)
              have h1 := getVal_lt a k v hg
              have h2 := sizeOf_obj a
              omega

theorem Jeq_symm {x y : Json} (h : Jeq x y) : Jeq y x :=
  Jeq_symm_aux (sizeOf x) x y (Nat.le_refl _) h

theorem Jeq_trans_aux : ∀ (n : Nat) (x y z : Json), sizeOf x ≤ n →
    Jeq x y → Jeq y z → Jeq x z := by
  intro n
  induction n with
  | zero => intro x y z hx _ _; cases x <;> simp at hx
  | succ n ih =>
      intro x y z hx h1 h2
      cases h1 with
      | base hno he => exact he ▸ h2
      | obj hf =>
          rename_i a b
          cases h2 with
          | base hno he => simp [Json.isObjB] at hno
          | obj hg =>
              rename_i c
              refine Jeq.obj (fun k => ?_)
              cases hv : getVal a k with
              | none =>
                  have hb : getVal b k = none := ORel_none_left (hv ▸ hf k)
                  have hc : getVal c k = none := ORel_none_left (hb ▸ hg k)
                  rw [hc]
                  exact ORel.none
              | some v =>
                  obtain ⟨w, hb, hvw⟩ := ORel_some_left (hv ▸ hf k)
                  obtain ⟨u, hc, hwu⟩ := ORel_some_left (hb ▸ hg k)
                  rw [hc]
                  refine ORel.some (ih v w u ?_ hvw hwu)
                  have h1 := getVal_lt a k v hv
                  have h2 := sizeOf_obj a
                  omega

theorem Jeq_trans {x y z : Json} (h1 : Jeq x y) (h2 : Jeq y z) : Jeq x z :=
  Jeq_trans_aux (sizeOf x) x y z (Nat.le_refl _) h1 h2

theorem PJeq_refl (p : JPairs) : PJeq p p := by
  intro k
  cases hv : getVal p k with
  | none => exact ORel.none
  | some v => exact ORel.some (Jeq_refl v)

theorem PJeq_symm {p q : JPairs} (h : PJeq p q) : PJeq q p := by
  intro k
  cases hv : getVal p k with
  | none =>
      have hb : getVal q k = none := ORel_none_left (hv ▸ h k)
      rw [hb]
      exact ORel.none
  | some v =>
      obtain ⟨w, hb, hvw⟩ := ORel_some_left (hv ▸ h k)
      rw [hb]
      exact ORel.some (Jeq_symm hvw)

theorem PJeq_trans {p q r : JPairs} (h1 : PJeq p q) (h2 : PJeq q r) : PJeq p r := by
  intro k
  cases hv : getVal p k with
  | none =>
      have hb : getVal q k = none := ORel_none_left (hv ▸ h1 k)
      have hc : getVal r k = none := ORel_none_left (hb ▸ h2 k)
      rw [hc]
      exact ORel.none
  | some v =>
      obtain ⟨w, hb, hvw⟩ := ORel_some_left (hv ▸ h1 k)
      obtain ⟨u, hc, hwu⟩ := ORel_some_left (hb ▸ h2 k)
      rw [hc]
      exact ORel.some (Jeq_trans hvw hwu)

theorem PJeq_of_getVal_eq {p q : JPairs} (h : ∀ k, getVal p k = getVal q k) :
    PJeq p q := by
  intro k
  rw [(h k).symm]
  exact PJeq_refl p k

theorem PJeq_objs {a b : JPairs} (h : Jeq (.obj a) (.obj b)) : PJeq a b := by
  cases h with
  | base hno _ => simp [Json.isObjB] at hno
  | obj hf => exact hf


theorem NDJ_obj (p : JPairs) : NDJ (.obj p) = (nodupKeys p.keys && NDP p) := rfl

theorem NDP_cons (k : String) (v : Json) (tl : JPairs) :
    NDP (.cons k v tl) = (NDJ v && NDP tl) := rfl

theorem NDP_getVal : ∀ (p : JPairs) (k : String) (v : Json),
    NDP p = true → getVal p k = some v → NDJ v = true := by
  intro p
  induction p using JPairs.inductionOn with
  | nil => intro k v _ h; cases h
  | cons k1 v1 tl ih =>
      intro k v hnd h
      rw [NDP_cons, Bool.and_eq_true] at hnd
      rw [getVal_cons] at h
      by_cases hk : k1 = k
      · rw [if_pos hk] at h
        cases h
        exact hnd.1
      · rw [if_neg hk] at h
        exact ih k v hnd.2 h

theorem setKey_cons_ne (k1 : String) (v1 : Json) (tl : JPairs) {k : String}
    (v : Json) (hk : ¬ k1 = k) :
    setKey (.cons k1 v1 tl) k v = .cons k1 v1 (setKey tl k v) := by
  simp [setKey, hk]

theorem keys_setKey : ∀ (d : Dict) (k : String) (v : Json),
    (setKey d k v).keys
      = if d.keys.contains k then d.keys else d.keys ++ [k] := by
  intro d
  induction d using JPairs.inductionOn with
  | nil => intro k v; simp [setKey, JPairs.keys]
  | cons k1 v1 tl ih =>
      intro k v
      by_cases hk : k1 = k
      · subst hk
        simp [setKey, JPairs.keys, List.contains_cons]
      · have hkb : (k == k1) = false := by
          simp only [beq_eq_false_iff_ne, ne_eq]
          exact fun he => hk he.symm
        rw [setKey_cons_ne k1 v1 tl v hk, JPairs.keys, ih k v, JPairs.keys,
            List.contains_cons, hkb, Bool.false_or]
        cases hc : tl.keys.contains k <;> simp

theorem keys_cons (k : String) (v : Json) (tl : JPairs) :
    (JPairs.cons k v tl).keys = k :: tl.keys := rfl

theorem contains_append_one (xs : List String) (x k : String) :
    (xs ++ [k]).contains x = (xs.contains x || (x == k)) := by
  induction xs with
  | nil => by_cases h : x = k <;> simp [List.contains_cons, h]
  | cons y ys ih =>
      by_cases h : x = k
      · simp [List.contains_cons, ih, Bool.or_assoc, h]
      · have hb : (x == k) = false := beq_eq_false_iff_ne.mpr h
        simp [List.contains_cons, ih, Bool.or_assoc, hb, h]

theorem nodup_append_one (ks : List String) (k : String) :
    nodupKeys ks = true → ks.contains k = false → nodupKeys (ks ++ [k]) = true := by
  induction ks with
  | nil => intro _ _; simp [nodupKeys, List.contains_nil]
  | cons x xs ih =>
      intro hnd hc
      rw [List.contains_cons, Bool.or_eq_false_iff] at hc
      rw [nodupKeys, Bool.and_eq_true] at hnd
      rw [List.cons_append, nodupKeys, Bool.and_eq_true]
      constructor
      · rw [Bool.not_eq_true', contains_append_one, Bool.or_eq_false_iff]
        refine ⟨by simpa using hnd.1, ?_⟩
        simp only [beq_eq_false_iff_ne, ne_eq]
        intro he
        subst he
        simp at hc
      · exact ih hnd.2 hc.2

theorem nodup_setKey (d : Dict) (k : String) (v : Json)
    (h : nodupKeys d.keys = true) : nodupKeys (setKey d k v).keys = true := by
  rw [keys_setKey]
  cases hc : d.keys.contains k
  · simpa using nodup_append_one d.keys k h hc
  · simpa using h

theorem NDP_setKey : ∀ (d : Dict) (k : String) (v : Json),
    NDP d = true → NDJ v = true → NDP (setKey d k v) = true := by
  intro d
  induction d using JPairs.inductionOn with
  | nil =>
      intro k v _ hv
      simp [setKey, NDP_cons, NDP, hv]
  | cons k1 v1 tl ih =>
      intro k v hnd hv
      rw [NDP_cons, Bool.and_eq_true] at hnd
      by_cases hk : k1 = k
      · simp [setKey, hk, NDP_cons, hv, hnd.2]
      · simp [setKey, hk, NDP_cons, hnd.1, ih k v hnd.2 hv]

theorem NDD_setKey (d : Dict) (k : String) (v : Json)
    (hd : NDD d = true) (hv : NDJ v = true) : NDD (setKey d k v) = true := by
  rw [NDD, NDJ_obj, Bool.and_eq_true] at hd ⊢
  exact ⟨nodup_setKey d k v hd.1, NDP_setKey d k v hd.2 hv⟩

theorem NDD_merge_aux : ∀ (n : Nat) (s d : JPairs), sizeOf s ≤ n →
    NDD d = true → NDD s = true → NDD (mergeObligations d s) = true := by
  intro n
  induction n with
  | zero =>
      intro s d hs _ _
      cases s <;> simp [JPairs.nil.sizeOf_spec, JPairs.cons.sizeOf_spec] at hs
  | succ n ih =>
      intro s d hs hd hnds
      match s with
      | .nil => exact hd
      | .cons k1 v tl =>
          rw [NDD, NDJ_obj, Bool.and_eq_true, NDP_cons, Bool.and_eq_true] at hnds
          have hkeys := hnds.1
          have hv := hnds.2.1
          have htl := hnds.2.2
          rw [keys_cons, nodupKeys, Bool.and_eq_true] at hkeys
          have hsz : sizeOf tl ≤ n := by
            simp only [JPairs.cons.sizeOf_spec] at hs
            omega
          have hnv : NDJ (mergeVal (getVal d k1) v) = true := by
            cases hx : getVal d k1 with
            | none => rw [mergeVal_none]; exact hv
            | some w =>
                cases w with
                | obj d2 =>
                    cases v with
                    | obj s2 =>
                        have hd2 : NDD d2 = true := by
                          have := NDP_getVal d k1 (.obj d2)
                            (by rw [NDD, NDJ_obj, Bool.and_eq_true] at hd; exact hd.2) hx
                          simpa [NDD] using this
                        have hs2 : NDD s2 = true := by simpa [NDD] using hv
                        have hsz2 : sizeOf s2 ≤ n := by
                          simp only [JPairs.cons.sizeOf_spec, Json.obj.sizeOf_spec] at hs
                          omega
                        simpa [mergeVal, NDD] using ih s2 d2 hsz2 hd2 hs2
                    | null => exact hv
                    | bool b => exact hv
                    | num m => exact hv
                    | str t => exact hv
                    | arr xs => exact hv
                | null => simpa [mergeVal] using hv
                | bool b => simpa [mergeVal] using hv
                | num m => simpa [mergeVal] using hv
                | str t => simpa [mergeVal] using hv
                | arr xs => simpa [mergeVal] using hv
          rw [merge_cons]
          refine ih tl _ hsz (NDD_setKey d k1 _ hd hnv) ?_
          rw [NDD, NDJ_obj, Bool.and_eq_true]
          exact ⟨hkeys.2, htl⟩

theorem NDD_merge {s d : JPairs} (hd : NDD d = true) (hs : NDD s = true) :
    NDD (mergeObligations d s) = true :=
  NDD_merge_aux (sizeOf s) s d (Nat.le_refl _) hd hs

theorem NDD_fold : ∀ (L : List JPairs) (d : JPairs), NDD d = true →
    (∀ s ∈ L, NDD s = true) → NDD (L.foldl mergeObligations d) = true := by
  intro L
  induction L with
  | nil => intro d hd _; exact hd
  | cons x tl ih =>
      intro d hd hL
      exact ih _ (NDD_merge hd (hL x (List.mem_cons_self x tl)))
        (fun s hs => hL s (List.mem_cons_of_mem x hs))

theorem pcompat_get : ∀ (a b : JPairs) (k : String) (v w : Json),
    pcompat a b = true → getVal a k = some v → getVal b k = some w →
    jcompat v w = true := by
  intro a
  induction a using JPairs.inductionOn with
  | nil => intro b k v w _ h _; cases h
  | cons k1 v1 tl ih =>
      intro b k v w hc hva hvb
      rw [pcompat, Bool.and_eq_true] at hc
      rw [getVal_cons] at hva
      by_cases hk : k1 = k
      · rw [if_pos hk] at hva
        cases hva
        subst hk
        rw [hvb] at hc
        exact hc.1
      · rw [if_neg hk] at hva
        exact ih b k v w hc.2 hva hvb

theorem jcompat_not_obj {v w : Json} (h : jcompat v w = true)
    (hv : Json.isObjB v = false) : v = w := by
  cases v <;> cases w <;> simp_all [jcompat, Json.isObjB]

theorem jcompat_obj_obj {s1 s2 : JPairs} (h : jcompat (.obj s1) (.obj s2) = true) :
    pcompat s1 s2 = true := by
  simpa [jcompat] using h

theorem jcompat_obj_right {s1 : JPairs} {w : Json}
    (h : jcompat (.obj s1) w = true) : Json.isObjB w = true := by
  cases w <;> simp_all [jcompat, Json.isObjB]

theorem isObjB_true {v : Json} (h : Json.isObjB v = true) : ∃ p, v = .obj p := by
  cases v <;> simp_all [Json.isObjB]


theorem NDD_parts {p : JPairs} (h : NDD p = true) :
    nodupKeys p.keys = true ∧ NDP p = true := by
  rw [NDD, NDJ_obj, Bool.and_eq_true] at h
  exact h

theorem merge_congr_aux : ∀ (n : Nat) (s : JPairs), sizeOf s ≤ n →
    ∀ (d1 d2 : JPairs), NDD s = true → PJeq d1 d2 →
      PJeq (mergeObligations d1 s) (mergeObligations d2 s) := by
  intro n
  induction n with
  | zero =>
      intro s hs
      cases s <;> simp [JPairs.nil.sizeOf_spec, JPairs.cons.sizeOf_spec] at hs
  | succ n ih =>
      intro s hs d1 d2 hnds h k
      have hkeys := (NDD_parts hnds).1
      have hndp := (NDD_parts hnds).2
      rw [getVal_merge s d1 k hkeys, getVal_merge s d2 k hkeys]
      cases hv : getVal s k with
      | none => exact h k
      | some v =>
          refine ORel.some ?_
          cases hx1 : getVal d1 k with
          | none =>
              have hx2 : getVal d2 k = none := ORel_none_left (hx1 ▸ h k)
              rw [hx2]
              exact Jeq_refl _
          | some w1 =>
              obtain ⟨w2, hx2, hw⟩ := ORel_some_left (hx1 ▸ h k)
              rw [hx2]
              cases hw with
              | base hno he =>
                  subst he
                  exact Jeq_refl _
              | obj hf =>
                  rename_i e1 e2
                  cases v with
                  | obj s2 =>
                      refine Jeq.obj ?_
                      have hs2 : sizeOf s2 ≤ n := by
                        have := getVal_lt s k (.obj s2) hv
                        simp only [Json.obj.sizeOf_spec, JPairs.cons.sizeOf_spec] at this hs ⊢
                        omega
                      have hnds2 : NDD s2 = true := by
                        simpa [NDD] using NDP_getVal s k (.obj s2) hndp hv
                      exact ih s2 hs2 e1 e2 hnds2 hf
                  | null => exact Jeq_refl _
                  | bool b2 => exact Jeq_refl _
                  | num m => exact Jeq_refl _
                  | str t => exact Jeq_refl _
                  | arr xs => exact Jeq_refl _

theorem merge_congr {s : JPairs} (hnds : NDD s = true) {d1 d2 : JPairs}
    (h : PJeq d1 d2) : PJeq (mergeObligations d1 s) (mergeObligations d2 s) :=
  merge_congr_aux (sizeOf s) s (Nat.le_refl _) d1 d2 hnds h

theorem merge_swap_aux : ∀ (n : Nat) (a b : JPairs), sizeOf a + sizeOf b ≤ n →
    ∀ (d : JPairs), NDD a = true → NDD b = true → pcompat a b = true →
      PJeq (mergeObligations (mergeObligations d a) b)
           (mergeObligations (mergeObligations d b) a) := by
  intro n
  induction n with
  | zero =>
      intro a b hab
      cases a <;> simp [JPairs.nil.sizeOf_spec, JPairs.cons.sizeOf_spec] at hab
  | succ n ih =>
      intro a b hab d hnda hndb hc k
      have hka := (NDD_parts hnda).1
      have hpa := (NDD_parts hnda).2
      have hkb := (NDD_parts hndb).1
      have hpb := (NDD_parts hndb).2
      rw [getVal_merge b (mergeObligations d a) k hkb,
          getVal_merge a (mergeObligations d b) k hka,
          getVal_merge a d k hka, getVal_merge b d k hkb]
      cases hva : getVal a k with
      | none =>
          cases hvb : getVal b k with
          | none => exact PJeq_refl d k
          | some w => exact ORel.some (Jeq_refl _)
      | some v =>
          cases hvb : getVal b k with
          | none => exact ORel.some (Jeq_refl _)
          | some w =>
              have jc := pcompat_get a b k v w hc hva hvb
              by_cases hvo : Json.isObjB v = true
              · obtain ⟨s1, rfl⟩ := isObjB_true hvo
                obtain ⟨s2, rfl⟩ := isObjB_true (jcompat_obj_right jc)
                have pc := jcompat_obj_obj jc
                have hnds1 : NDD s1 = true := by
                  simpa [NDD] using NDP_getVal a k _ hpa hva
                have hnds2 : NDD s2 = true := by
                  simpa [NDD] using NDP_getVal b k _ hpb hvb
                have hsz : sizeOf s1 + sizeOf s2 ≤ n := by
                  have h1 := getVal_lt a k _ hva
                  have h2 := getVal_lt b k _ hvb
                  simp only [Json.obj.sizeOf_spec] at h1 h2
                  omega
                have sandwich : PJeq (mergeObligations s1 s2)
                    (mergeObligations s2 s1) := by
                  refine PJeq_trans (PJeq_trans ?_ (ih s1 s2 hsz .nil hnds1 hnds2 pc)) ?_
                  · exact merge_congr hnds2 (PJeq_of_getVal_eq
                      (fun k2 => (getVal_merge_nil s1 k2 (NDD_parts hnds1).1).symm))
                  · exact merge_congr hnds1 (PJeq_of_getVal_eq
                      (fun k2 => getVal_merge_nil s2 k2 (NDD_parts hnds2).1))
                cases hx : getVal d k with
                | none => exact ORel.some (Jeq.obj sandwich)
                | some w0 =>
                    cases w0 with
                    | obj d2 => exact ORel.some (Jeq.obj (ih s1 s2 hsz d2 hnds1 hnds2 pc))
                    | null => exact ORel.some (Jeq.obj sandwich)
                    | bool b2 => exact ORel.some (Jeq.obj sandwich)
                    | num m => exact ORel.some (Jeq.obj sandwich)
                    | str t => exact ORel.some (Jeq.obj sandwich)
                    | arr xs => exact ORel.some (Jeq.obj sandwich)
              · have hvw := jcompat_not_obj jc (by simpa using hvo)
                subst hvw
                exact ORel.some (Jeq_refl _)

theorem merge_swap {a b : JPairs} (d : JPairs) (ha : NDD a = true)
    (hb : NDD b = true) (hc : pcompat a b = true) :
    PJeq (mergeObligations (mergeObligations d a) b)
         (mergeObligations (mergeObligations d b) a) :=
  merge_swap_aux (sizeOf a + sizeOf b) a b (Nat.le_refl _) d ha hb hc

theorem selfJeq_aux : ∀ (n : Nat) (p : JPairs), sizeOf p ≤ n → NDD p = true →
    PJeq (mergeObligations p p) p := by
  intro n
  induction n with
  | zero =>
      intro p hp
      cases p <;> simp [JPairs.nil.sizeOf_spec, JPairs.cons.sizeOf_spec] at hp
  | succ n ih =>
      intro p hp hnd k
      have hkp := (NDD_parts hnd).1
      have hpp := (NDD_parts hnd).2
      rw [getVal_merge p p k hkp]
      cases hv : getVal p k with
      | none => exact ORel.none
      | some v =>
          refine ORel.some ?_
          cases v with
          | obj e =>
              refine Jeq.obj ?_
              have hsz : sizeOf e ≤ n := by
                have := getVal_lt p k (.obj e) hv
                simp only [Json.obj.sizeOf_spec] at this
                omega
              exact ih e hsz (by simpa [NDD] using NDP_getVal p k _ hpp hv)
          | null => exact Jeq_refl _
          | bool b2 => exact Jeq_refl _
          | num m => exact Jeq_refl _
          | str t => exact Jeq_refl _
          | arr xs => exact Jeq_refl _

theorem selfJeq {p : JPairs} (h : NDD p = true) :
    PJeq (mergeObligations p p) p :=
  selfJeq_aux (sizeOf p) p (Nat.le_refl _) h

theorem double_merge_self {A : JPairs} (h : NDD A = true) :
    PJeq (mergeObligations (mergeObligations .nil A) A) A := by
  intro k
  have hka := (NDD_parts h).1
  rw [getVal_merge A _ k hka, getVal_merge_nil A k hka]
  cases hv : getVal A k with
  | none => exact ORel.none
  | some v =>
      refine ORel.some ?_
      cases v with
      | obj e =>
          exact Jeq.obj (selfJeq (by simpa [NDD] using NDP_getVal A k _ (NDD_parts h).2 hv))
      | null => exact Jeq_refl _
      | bool b2 => exact Jeq_refl _
      | num m => exact Jeq_refl _
      | str t => exact Jeq_refl _
      | arr xs => exact Jeq_refl _

theorem fold_congr : ∀ (L : List JPairs), (∀ s ∈ L, NDD s = true) →
    ∀ {d1 d2 : JPairs}, PJeq d1 d2 →
      PJeq (L.foldl mergeObligations d1) (L.foldl mergeObligations d2) := by
  intro L
  induction L with
  | nil => intro _ _ _ h; exact h
  | cons x tl ih =>
      intro hL d1 d2 h
      simp only [List.foldl]
      exact ih (fun s hs => hL s (List.mem_cons_of_mem x hs))
        (merge_congr (hL x (List.mem_cons_self x tl)) h)

/-- Symmetric collision-freedom (the form carried through `Pairwise`). -/
def pcompat2 (a b : JPairs) : Prop := pcompat a b = true ∧ pcompat b a = true

instance (a b : JPairs) : Decidable (pcompat2 a b) :=
  inferInstanceAs (Decidable (pcompat a b = true ∧ pcompat b a = true))

theorem pcompat2_symm : Symmetric pcompat2 := fun _ _ h => ⟨h.2, h.1⟩

theorem fold_perm : ∀ {L L2 : List JPairs}, L.Perm L2 →
    (∀ s ∈ L, NDD s = true) → L.Pairwise pcompat2 →
    ∀ d, PJeq (L.foldl mergeObligations d) (L2.foldl mergeObligations d) := by
  intro L L2 hp
  induction hp with
  | nil => intro _ _ d; exact PJeq_refl _
  | cons x p ih =>
      intro hnd hpw d
      simp only [List.foldl]
      exact ih (fun s hs => hnd s (List.mem_cons_of_mem x hs))
        ((List.pairwise_cons.mp hpw).2) (mergeObligations d x)
  | swap x y l =>
      intro hnd hpw d
      simp only [List.foldl]
      have hcxy : pcompat2 y x :=
        (List.pairwise_cons.mp hpw).1 x (List.mem_cons_self x l)
      have hndy : NDD y = true := hnd y (List.mem_cons_self y (x :: l))
      have hndx : NDD x = true :=
        hnd x (List.mem_cons_of_mem y (List.mem_cons_self x l))
      have hndl : ∀ s ∈ l, NDD s = true := fun s hs =>
        hnd s (List.mem_cons_of_mem y (List.mem_cons_of_mem x hs))
      exact fold_congr l hndl (merge_swap d hndy hndx hcxy.1)
  | trans p1 p2 ih1 ih2 =>
      intro hnd hpw d
      refine PJeq_trans (ih1 hnd hpw d) (ih2 ?_ ?_ d)
      · intro s hs
        exact hnd s (p1.mem_iff.mpr hs)
      · exact (p1.pairwise_iff (fun hab => pcompat2_symm hab)).mp hpw


/-- `list(x)` succeeds: lists, strings and mappings are iterable. -/
def iterOk : Json → Bool
  | .arr _ => true
  | .str _ => true
  | .obj _ => true
  | _ => false

/-- Membership in the `levels` list of `risk_ge`. -/
def levelOk (s : String) : Bool := LEVELS.contains s

theorem pyContains_obj (k : String) (w : JPairs) :
    pyContains k (.obj w) = .ok (w.keys.any (fun k1 => k1 = k)) := rfl

theorem pyIndex_obj (w : JPairs) (k : String) :
    pyIndex (.obj w) k =
      (match getVal w k with
       | some v => .ok v
       | none => .error "KeyError") := rfl

theorem anyKeys_eq_isSome (w : JPairs) (k : String) :
    (w.keys.any (fun k1 => k1 = k)) = (getVal w k).isSome := by
  induction w using JPairs.inductionOn with
  | nil => rfl
  | cons k1 v tl ih =>
      rw [keys_cons, List.any_cons, getVal_cons, ih]
      by_cases hk : k1 = k
      · simp [hk]
      · simp [hk]

theorem listIndex_ok : ∀ (l : List String) (s : String), l.contains s = true →
    ∃ n, listIndex s l = .ok n := by
  intro l
  induction l with
  | nil => intro s h; simp [List.contains_nil] at h
  | cons x xs ih =>
      intro s h
      by_cases hx : x = s
      · exact ⟨0, by simp [listIndex, hx]⟩
      · have hxs : xs.contains s = true := by
          rw [List.contains_cons] at h
          have : (s == x) = false := beq_eq_false_iff_ne.mpr (fun he => hx he.symm)
          simpa [this] using h
        obtain ⟨n, hn⟩ := ih s hxs
        exact ⟨n + 1, by rw [listIndex, if_neg hx, hn]; rfl⟩

theorem risk_ge_ok (r a : String) (hr : levelOk r = true) (ha : levelOk a = true) :
    ∃ b, risk_ge r a = .ok b := by
  obtain ⟨i, hi⟩ := listIndex_ok LEVELS r hr
  obtain ⟨j, hj⟩ := listIndex_ok LEVELS a ha
  refine ⟨decide (i ≥ j), ?_⟩
  unfold risk_ge
  rw [hi]
  simp only [ok_bind]
  rw [hj]
  rfl

theorem pyList_iterOk {v : Json} (h : iterOk v = true) : ∃ xs, pyList v = .ok xs := by
  cases v with
  | arr xs => exact ⟨xs.toList, rfl⟩
  | str s => exact ⟨s.data.map (fun c => Json.str (String.mk [c])), rfl⟩
  | obj kvs => exact ⟨kvs.keys.map Json.str, rfl⟩
  | null => simp [iterOk] at h
  | bool b => simp [iterOk] at h
  | num n => simp [iterOk] at h

/-- Pure content of the `when.tool` block of `match_when`. -/
def mwp1 (w : JPairs) (tool : String) : Bool :=
  match getVal w "tool" with
  | some v => tool_matches tool v
  | none => true

/-- Pure content of the `when.tool_any_of` block. -/
def mwp2 (w : JPairs) (tool : String) : Bool :=
  match getVal w "tool_any_of" with
  | some v =>
      (match pyList v with
       | .ok xs => (xs.map pyStr).contains tool
       | .error _ => true)
  | none => true

/-- Pure content of the `when.risk_at_least` block. -/
def mwp3 (w : JPairs) (risk : String) : Bool :=
  match getVal w "risk_at_least" with
  | some v =>
      (match risk_ge risk (pyStr v) with
       | .ok b => b
       | .error _ => true)
  | none => true

/-- Pure content of the `when.classification_any_of` block. -/
def mwp4 (w : JPairs) (cls : List String) : Bool :=
  match getVal w "classification_any_of" with
  | some v =>
      (match pyList v with
       | .ok xs => (xs.map pyStr).any (fun x => cls.contains x)
       | .error _ => true)
  | none => true

/-- Pure content of `match_when` on a mapping with no `decision` matcher. -/
def mwPure (w : JPairs) (tool risk : String) (cls : List String) : Bool :=
  if (Json.obj w).truthy then mwp1 w tool && mwp2 w tool && mwp3 w risk && mwp4 w cls
  else true

/-- The `when.decision` block of `match_when` as a standalone computation. -/
def mwB5 (w : JPairs) (dec : String) : Except String Bool := do
  if (← pyContains "decision" (.obj w)) then
    if pyStr (← pyIndex (.obj w) "decision") ≠ dec then return false
  return true

/-- The `when.classification_any_of` block followed by the rest. -/
def mwB4 (w : JPairs) (cls : List String) (dec : String) : Except String Bool := do
  if (← pyContains "classification_any_of" (.obj w)) then
    let xs ← pyList (← pyIndex (.obj w) "classification_any_of")
    if !((xs.map pyStr).any (fun x => cls.contains x)) then return false
  mwB5 w dec

/-- The `when.risk_at_least` block followed by the rest. -/
def mwB3 (w : JPairs) (risk : String) (cls : List String) (dec : String) :
    Except String Bool := do
  if (← pyContains "risk_at_least" (.obj w)) then
    if !(← risk_ge risk (pyStr (← pyIndex (.obj w) "risk_at_least"))) then return false
  mwB4 w cls dec

/-- The `when.tool_any_of` block followed by the rest. -/
def mwB2 (w : JPairs) (tool risk : String) (cls : List String) (dec : String) :
    Except String Bool := do
  if (← pyContains "tool_any_of" (.obj w)) then
    let xs ← pyList (← pyIndex (.obj w) "tool_any_of")
    if !((xs.map pyStr).contains tool) then return false
  mwB3 w risk cls dec

/-- The `when.tool` block followed by the rest. -/
def mwB1 (w : JPairs) (tool risk : String) (cls : List String) (dec : String) :
    Except String Bool := do
  if (← pyContains "tool" (.obj w)) then
    if !(tool_matches tool (← pyIndex (.obj w) "tool")) then return false
  mwB2 w tool risk cls dec

theorem match_when_cons (k0 : String) (v0 : Json) (tl0 : JPairs)
    (tool risk : String) (cls : List String) (dec : String) :
    match_when (.obj (.cons k0 v0 tl0)) tool risk cls dec
      = mwB1 (.cons k0 v0 tl0) tool risk cls dec := rfl

theorem mwB5_eq (w : JPairs) (dec : String) (hd : getVal w "decision" = none) :
    mwB5 w dec = pure true := by
  unfold mwB5
  rw [pyContains_obj]
  simp only [ok_bind]
  rw [anyKeys_eq_isSome, hd]
  rw [if_neg (by simp)]
  simp only [pure_bind]

theorem mwB4_eq (w : JPairs) (cls : List String) (dec : String)
    (hca : (match getVal w "classification_any_of" with
            | some v => iterOk v
            | none => true) = true) :
    mwB4 w cls dec = if mwp4 w cls then mwB5 w dec else pure false := by
  unfold mwB4
  rw [pyContains_obj]
  simp only [ok_bind]
  rw [anyKeys_eq_isSome]
  cases hc : getVal w "classification_any_of" with
  | none =>
      rw [if_neg (by simp)]
      simp only [pure_bind]
      simp [mwp4, hc]
  | some v =>
      rw [if_pos (show (Option.isSome (some v)) = true from rfl), pyIndex_obj, hc]
      simp only [ok_bind]
      rw [hc] at hca
      obtain ⟨xs, hxs⟩ := pyList_iterOk hca
      rw [hxs]
      simp only [ok_bind]
      cases hm : (xs.map pyStr).any (fun x => cls.contains x) with
      | false =>
          rw [if_pos (by decide)]
          have hval : mwp4 w cls = false := by simp only [mwp4, hc, hxs, hm]
          rw [hval, if_neg (by decide)]
      | true =>
          rw [if_neg (by decide)]
          simp only [pure_bind]
          have hval : mwp4 w cls = true := by simp only [mwp4, hc, hxs, hm]
          rw [hval, if_pos (show true = true from rfl)]

theorem mwB3_eq (w : JPairs) (risk : String) (cls : List String) (dec : String)
    (hrk : levelOk risk = true)
    (hra : (match getVal w "risk_at_least" with
            | some v => levelOk (pyStr v)
            | none => true) = true) :
    mwB3 w risk cls dec = if mwp3 w risk then mwB4 w cls dec else pure false := by
  unfold mwB3
  rw [pyContains_obj]
  simp only [ok_bind]
  rw [anyKeys_eq_isSome]
  cases hc : getVal w "risk_at_least" with
  | none =>
      rw [if_neg (by simp)]
      simp only [pure_bind]
      simp [mwp3, hc]
  | some v =>
      rw [if_pos (show (Option.isSome (some v)) = true from rfl), pyIndex_obj, hc]
      simp only [ok_bind]
      rw [hc] at hra
      obtain ⟨b, hb⟩ := risk_ge_ok risk (pyStr v) hrk hra
      rw [hb]
      simp only [ok_bind]
      cases b with
      | false =>
          rw [if_pos (by decide)]
          simp [mwp3, hc, hb]
      | true =>
          rw [if_neg (by decide)]
          simp only [pure_bind]
          simp [mwp3, hc, hb]

theorem mwB2_eq (w : JPairs) (tool risk : String) (cls : List String) (dec : String)
    (hta : (match getVal w "tool_any_of" with
            | some v => iterOk v
            | none => true) = true) :
    mwB2 w tool risk cls dec
      = if mwp2 w tool then mwB3 w risk cls dec else pure false := by
  unfold mwB2
  rw [pyContains_obj]
  simp only [ok_bind]
  rw [anyKeys_eq_isSome]
  cases hc : getVal w "tool_any_of" with
  | none =>
      rw [if_neg (by simp)]
      simp only [pure_bind]
      simp [mwp2, hc]
  | some v =>
      rw [if_pos (show (Option.isSome (some v)) = true from rfl), pyIndex_obj, hc]
      simp only [ok_bind]
      rw [hc] at hta
      obtain ⟨xs, hxs⟩ := pyList_iterOk hta
      rw [hxs]
      simp only [ok_bind]
      cases hm : (xs.map pyStr).contains tool with
      | false =>
          rw [if_pos (by decide)]
          have hval : mwp2 w tool = false := by simp only [mwp2, hc, hxs, hm]
          rw [hval, if_neg (by decide)]
      | true =>
          rw [if_neg (by decide)]
          simp only [pure_bind]
          have hval : mwp2 w tool = true := by simp only [mwp2, hc, hxs, hm]
          rw [hval, if_pos (show true = true from rfl)]

theorem mwB1_eq (w : JPairs) (tool risk : String) (cls : List String) (dec : String) :
    mwB1 w tool risk cls dec
      = if mwp1 w tool then mwB2 w tool risk cls dec else pure false := by
  unfold mwB1
  rw [pyContains_obj]
  simp only [ok_bind]
  rw [anyKeys_eq_isSome]
  cases hc : getVal w "tool" with
  | none =>
      rw [if_neg (by simp)]
      simp only [pure_bind]
      simp [mwp1, hc]
  | some v =>
      rw [if_pos (show (Option.isSome (some v)) = true from rfl), pyIndex_obj, hc]
      simp only [ok_bind]
      cases hm : tool_matches tool v with
      | false =>
          rw [if_pos (by decide)]
          simp [mwp1, hc, hm]
      | true =>
          rw [if_neg (by decide)]
          simp only [pure_bind]
          simp [mwp1, hc, hm]

/-- Shape constraints on a `when` mapping: no `decision` matcher and
list-shaped or level-valued matcher arguments. -/
def whenWF (w : JPairs) : Bool :=
  (match getVal w "decision" with
   | some _ => false
   | none => true) &&
  (match getVal w "tool_any_of" with
   | some v => iterOk v
   | none => true) &&
  (match getVal w "risk_at_least" with
   | some v => levelOk (pyStr v)
   | none => true) &&
  (match getVal w "classification_any_of" with
   | some v => iterOk v
   | none => true)

theorem match_when_wf (w : JPairs) (tool risk : String) (cls : List String)
    (hwf : whenWF w = true) (hrk : levelOk risk = true) (dec : String) :
    match_when (.obj w) tool risk cls dec = .ok (mwPure w tool risk cls) := by
  unfold whenWF at hwf
  simp only [Bool.and_eq_true] at hwf
  have h1 := hwf.1.1.1
  have h2 := hwf.1.1.2
  have h3 := hwf.1.2
  have h4 := hwf.2
  have hd : getVal w "decision" = none := by
    have aux : ∀ (o : Option Json),
        (match o with | some _ => false | none => true) = true → o = none := by
      intro o h
      cases o
      · rfl
      · simp at h
    exact aux _ h1
  cases w with
  | nil => rfl
  | cons k0 v0 tl0 =>
      rw [match_when_cons, mwB1_eq, mwB2_eq _ _ _ _ _ h2,
          mwB3_eq _ _ _ _ hrk h3, mwB4_eq _ _ _ h4, mwB5_eq _ _ hd]
      have hmp : mwPure (.cons k0 v0 tl0) tool risk cls
          = (mwp1 (.cons k0 v0 tl0) tool && mwp2 (.cons k0 v0 tl0) tool &&
             mwp3 (.cons k0 v0 tl0) risk && mwp4 (.cons k0 v0 tl0) cls) := by
        simp [mwPure, Json.truthy, JPairs.isNil]
      rw [hmp]
      cases hb1 : mwp1 (.cons k0 v0 tl0) tool <;>
        cases hb2 : mwp2 (.cons k0 v0 tl0) tool <;>
          cases hb3 : mwp3 (.cons k0 v0 tl0) risk <;>
            cases hb4 : mwp4 (.cons k0 v0 tl0) cls <;> simp <;> rfl

theorem dmax_allow (d : Dc) : dmax d .allow = d := by
  cases d <;> rfl

/-- A value that is used as `x or {}` and then indexed must be a mapping or
falsy. -/
def objOrFalsy (v : Json) : Bool := !v.truthy || v.isObjB

/-- The mapping denoted by `x or {}` (meaningful when `objOrFalsy x`). -/
def asObj (v : Json) : JPairs :=
  match pyOr v (.obj .nil) with
  | .obj p => p
  | _ => .nil

/-- A decision string accepted by `ORDER`. -/
def dcOk (s : String) : Bool := (dcOf s).isSome

theorem pyOr_objOrFalsy {v : Json} (h : objOrFalsy v = true) :
    pyOr v (.obj .nil) = .obj (asObj v) := by
  unfold objOrFalsy at h
  cases hv : v.truthy with
  | false =>
      have h1 : pyOr v (.obj .nil) = .obj .nil := by
        unfold pyOr
        rw [hv]
        rfl
      rw [h1]
      unfold asObj
      rw [h1]
  | true =>
      rw [hv] at h
      simp only [Bool.not_true, Bool.false_or] at h
      obtain ⟨p, rfl⟩ := isObjB_true h
      have h1 : pyOr (Json.obj p) (.obj .nil) = .obj p := by
        unfold pyOr
        rw [hv]
        rfl
      rw [h1]
      unfold asObj
      rw [h1]

theorem asObj_of_eq {v : Json} {w : JPairs} (h : pyOr v (.obj .nil) = .obj w) :
    asObj v = w := by
  unfold asObj
  rw [h]

theorem match_obj_true {v : Json} {f : JPairs → Bool}
    (h : (match v with | .obj w => f w | _ => false) = true) :
    ∃ w, v = .obj w ∧ f w = true := by
  cases v <;> simp_all

theorem dcOk_str {s : String} (h : dcOk s = true) :
    ((dcOf s).getD Dc.allow).str = s := by
  unfold dcOk dcOf at *
  by_cases h1 : s = "allow"
  · simp [h1, Dc.str]
  · by_cases h2 : s = "confirm"
    · simp [h1, h2, Dc.str]
    · by_cases h3 : s = "deny"
      · simp [h1, h2, h3, Dc.str]
      · simp [h1, h2, h3] at h

theorem pyGet_obj (r : JPairs) (k : String) :
    pyGet (.obj r) k = .ok (dictGet r k) := rfl

/-- The failed-exemption test of the `allow_if` gate, as a pure function of
the rule body, the call arguments and the environment. -/
def gateFails (args : Dict) (env : List (String × String)) (r : JPairs) : Bool :=
  match getVal r "allow_if" with
  | none => false
  | some v =>
      match pyOr v (.obj .nil) with
      | .obj aip =>
          (match getVal aip "path_prefix_any" with
           | none => false
           | some pv =>
               (match pyList pv with
                | .ok prefixes =>
                    !(path_prefix_any
                        (strOpt (pyOr (dictGet args "path") (dictGet args "file_path")))
                        prefixes env)
                | .error _ => false))
      | _ => false

/-- The `otherwise` action of a rule, as a decision value. -/
def otwAct (r : JPairs) : Dc :=
  (dcOf (pyStr (pyOr (dictGet (asObj (dictGet r "otherwise")) "action")
    (.str "confirm")))).getD .allow

/-- The `action` of a rule, as a decision value. -/
def actOf (r : JPairs) : Dc :=
  (dcOf (pyStr (pyOr (dictGet r "action") (.str "allow")))).getD .allow

/-- The obligation dictionaries a rule merges when its gate does not fail:
`require`, then the wrapped `allow_override`. -/
def restObs (r : JPairs) : List JPairs :=
  (match getVal r "require" with
   | some (.obj q) => [q]
   | _ => []) ++
  (match getVal r "allow_override" with
   | some (.obj ao) => [JPairs.cons "allow_override" (.obj ao) .nil]
   | _ => [])

/-- The decision contributed by a matched rule. -/
def ruleActD (args : Dict) (env : List (String × String)) (rule : Json) : Dc :=
  match rule with
  | .obj r => if gateFails args env r then otwAct r else actOf r
  | _ => .allow

/-- The obligation dictionaries merged by a matched rule. -/
def ruleObs (args : Dict) (env : List (String × String)) (rule : Json) :
    List JPairs :=
  match rule with
  | .obj r => if gateFails args env r then [] else restObs r
  | _ => []

/-- The obligation dictionaries a rule can ever merge (whether or not it
matches and whether or not its gate fails). -/
def rawObs (rule : Json) : List JPairs :=
  match rule with
  | .obj r => restObs r
  | _ => []

/-- Whether a rule matches (decision-independent under `RuleWF`). -/
def ruleMt (tool risk : String) (cls : List String) (rule : Json) : Bool :=
  match rule with
  | .obj r => mwPure (asObj (dictGet r "when")) tool risk cls
  | _ => false

/-- The decision contribution of one rule of the loop. -/
def contribAct (tool risk : String) (cls : List String) (args : Dict)
    (env : List (String × String)) (rule : Json) : Dc :=
  if ruleMt tool risk cls rule then ruleActD args env rule else .allow

/-- The obligation contribution of one rule of the loop. -/
def contribObs (tool risk : String) (cls : List String) (args : Dict)
    (env : List (String × String)) (rule : Json) : List JPairs :=
  if ruleMt tool risk cls rule then ruleObs args env rule else []

/-- Shape constraints on a rule under which one iteration of the rule loop
is total and its contribution is independent of the running decision: the
rule is a mapping, its `when` is a mapping (or absent) without a `decision`
matcher and with well-shaped matcher arguments, `allow_if`/`otherwise` are
mappings or falsy with a list-shaped `path_prefix_any`, both actions are
decision strings, and its obligation mappings have duplicate-free keys. -/
def RuleWF (rule : Json) : Bool :=
  match rule with
  | .obj r =>
      (match pyOr (dictGet r "when") (.obj .nil) with
       | .obj w => whenWF w
       | _ => false) &&
      (match getVal r "allow_if" with
       | some v =>
           objOrFalsy v &&
           (match getVal (asObj v) "path_prefix_any" with
            | some pv => iterOk pv
            | none => true)
       | none => true) &&
      objOrFalsy (dictGet r "otherwise") &&
      dcOk (pyStr (pyOr (dictGet (asObj (dictGet r "otherwise")) "action")
        (.str "confirm"))) &&
      dcOk (pyStr (pyOr (dictGet r "action") (.str "allow"))) &&
      (match getVal r "require" with
       | some (.obj q) => NDD q
       | _ => true) &&
      (match getVal r "allow_override" with
       | some (.obj q) => NDD q
       | _ => true)
  | _ => false

theorem applyGate_wf (args : Dict) (env : List (String × String)) (r : JPairs)
    (st : RState) (m1 : List String) (rid : String) (dS : Dc)
    (hdec : st.decision = dS.str)
    (hallow : (match getVal r "allow_if" with
               | some v =>
                   objOrFalsy v &&
                   (match getVal (asObj v) "path_prefix_any" with
                    | some pv => iterOk pv
                    | none => true)
               | none => true) = true)
    (hotw : objOrFalsy (dictGet r "otherwise") = true)
    (hoa : dcOk (pyStr (pyOr (dictGet (asObj (dictGet r "otherwise")) "action")
      (.str "confirm"))) = true) :
    (gateFails args env r = false ∧
      applyGate args env (.obj r) st m1 rid = .ok none) ∨
    (gateFails args env r = true ∧ ∃ r2,
      applyGate args env (.obj r) st m1 rid
        = .ok (some { decision := (dmax dS (otwAct r)).str,
                      obligations := st.obligations,
                      matched := m1, reason := r2 })) := by
  unfold applyGate
  rw [pyContains_obj]
  simp only [ok_bind]
  rw [anyKeys_eq_isSome]
  cases hai : getVal r "allow_if" with
  | none =>
      rw [if_pos (by decide)]
      exact Or.inl ⟨by simp only [gateFails, hai], rfl⟩
  | some v =>
      rw [if_neg (by simp)]
      simp only [pure_bind]
      rw [pyGet_obj]
      simp only [ok_bind]
      have hdg : dictGet r "allow_if" = v := by
        unfold dictGet
        rw [hai]
        rfl
      rw [hdg]
      rw [hai] at hallow
      have hallow2 : (objOrFalsy v &&
          (match getVal (asObj v) "path_prefix_any" with
           | some pv => iterOk pv
           | none => true)) = true := hallow
      rw [Bool.and_eq_true] at hallow2
      rw [pyOr_objOrFalsy hallow2.1, pyContains_obj]
      simp only [ok_bind]
      rw [anyKeys_eq_isSome]
      cases hppa : getVal (asObj v) "path_prefix_any" with
      | none =>
          rw [if_pos (by decide)]
          refine Or.inl ⟨?_, rfl⟩
          simp only [gateFails, hai, pyOr_objOrFalsy hallow2.1, hppa]
      | some pv =>
          rw [if_neg (by simp)]
          rw [pyIndex_obj, hppa]
          simp only [ok_bind]
          have hiter : iterOk pv = true := by
            have h2 := hallow2.2
            rw [hppa] at h2
            exact h2
          obtain ⟨xs, hxs⟩ := pyList_iterOk hiter
          rw [hxs]
          simp only [ok_bind]
          cases hgf : path_prefix_any
              (strOpt (pyOr (dictGet args "path") (dictGet args "file_path"))) xs env with
          | true =>
              rw [if_pos (show true = true from rfl)]
              refine Or.inl ⟨?_, rfl⟩
              simp only [gateFails, hai, pyOr_objOrFalsy hallow2.1, hppa, hxs, hgf,
                Bool.not_true]
          | false =>
              rw [if_neg (by decide)]
              rw [pyGet_obj]
              simp only [ok_bind]
              rw [pyOr_objOrFalsy hotw, pyGet_obj]
              simp only [ok_bind]
              rw [show pyStr (pyOr (dictGet (asObj (dictGet r "otherwise")) "action")
                    (.str "confirm")) = (otwAct r).str from (dcOk_str hoa).symm]
              rw [hdec, max_decision_str]
              simp only [ok_bind]
              rw [orderOf_str]
              simp only [ok_bind]
              rw [show orderOf "confirm" = .ok 1 from rfl]
              simp only [ok_bind]
              refine Or.inr ⟨?_, ⟨_, rfl⟩⟩
              simp only [gateFails, hai, pyOr_objOrFalsy hallow2.1, hppa, hxs, hgf,
                Bool.not_false]

theorem obReq_eq (r : JPairs) (ob : Dict) :
    (do
      if (← pyContains "require" (Json.obj r)) then
        match (← pyIndex (Json.obj r) "require") with
        | .obj req => pure (mergeObligations ob req)
        | _ => pure ob
      else pure ob : Except String Dict)
    = .ok ((match getVal r "require" with
            | some (.obj q) => [q]
            | _ => ([] : List JPairs)).foldl mergeObligations ob) := by
  rw [pyContains_obj]
  simp only [ok_bind]
  rw [anyKeys_eq_isSome]
  cases hc : getVal r "require" with
  | none => rw [if_neg (by decide)]; rfl
  | some v =>
      rw [if_pos (show Option.isSome (some v) = true from rfl), pyIndex_obj, hc]
      cases v <;> rfl

theorem obAO_eq (r : JPairs) (ob : Dict) :
    (do
      if (← pyContains "allow_override" (Json.obj r)) then
        match (← pyIndex (Json.obj r) "allow_override") with
        | .obj ao => pure (mergeObligations ob
            (JPairs.cons "allow_override" (Json.obj ao) .nil))
        | _ => pure ob
      else pure ob : Except String Dict)
    = .ok ((match getVal r "allow_override" with
            | some (.obj ao) => [JPairs.cons "allow_override" (Json.obj ao) .nil]
            | _ => ([] : List JPairs)).foldl mergeObligations ob) := by
  rw [pyContains_obj]
  simp only [ok_bind]
  rw [anyKeys_eq_isSome]
  cases hc : getVal r "allow_override" with
  | none => rw [if_neg (by decide)]; rfl
  | some v =>
      rw [if_pos (show Option.isSome (some v) = true from rfl), pyIndex_obj, hc]
      cases v <;> rfl

theorem applyRest_wf (r : JPairs) (st : RState) (m1 : List String) (rid : String)
    (dS : Dc) (hdec : st.decision = dS.str)
    (hact : dcOk (pyStr (pyOr (dictGet r "action") (.str "allow"))) = true) :
    ∃ r2, applyRest (.obj r) st m1 rid
      = .ok { decision := (dmax dS (actOf r)).str,
              obligations := (restObs r).foldl mergeObligations st.obligations,
              matched := m1, reason := r2 } := by
  unfold applyRest
  rw [obReq_eq]
  simp only [ok_bind]
  rw [obAO_eq]
  simp only [ok_bind]
  rw [pyGet_obj]
  simp only [ok_bind]
  rw [show pyStr (pyOr (dictGet r "action") (.str "allow")) = (actOf r).str from
        (dcOk_str hact).symm]
  rw [hdec, max_decision_str]
  simp only [ok_bind]
  rw [show restObs r = (match getVal r "require" with
        | some (.obj q) => [q]
        | _ => ([] : List JPairs)) ++
        (match getVal r "allow_override" with
         | some (.obj ao) => [JPairs.cons "allow_override" (Json.obj ao) .nil]
         | _ => ([] : List JPairs)) from rfl]
  rw [List.foldl_append]
  exact ⟨_, rfl⟩

theorem ruleStep_wf (tool : String) (args : Dict) (risk : String)
    (cls : List String) (env : List (String × String)) (rule : Json)
    (st : RState) (dS : Dc) (hwf : RuleWF rule = true)
    (hrk : levelOk risk = true) (hdec : st.decision = dS.str) :
    ∃ m2 r2, ruleStep tool args risk cls env st rule
      = .ok { decision := (dmax dS (contribAct tool risk cls args env rule)).str,
              obligations := (contribObs tool risk cls args env rule).foldl
                mergeObligations st.obligations,
              matched := m2, reason := r2 } := by
  cases rule with
  | null => simp [RuleWF] at hwf
  | bool b => simp [RuleWF] at hwf
  | num n => simp [RuleWF] at hwf
  | str t => simp [RuleWF] at hwf
  | arr xs => simp [RuleWF] at hwf
  | obj r =>
      have hwf2 : ((match pyOr (dictGet r "when") (.obj .nil) with
         | .obj w => whenWF w
         | _ => false) &&
        (match getVal r "allow_if" with
         | some v =>
             objOrFalsy v &&
             (match getVal (asObj v) "path_prefix_any" with
              | some pv => iterOk pv
              | none => true)
         | none => true) &&
        objOrFalsy (dictGet r "otherwise") &&
        dcOk (pyStr (pyOr (dictGet (asObj (dictGet r "otherwise")) "action")
          (.str "confirm"))) &&
        dcOk (pyStr (pyOr (dictGet r "action") (.str "allow"))) &&
        (match getVal r "require" with
         | some (.obj q) => NDD q
         | _ => true) &&
        (match getVal r "allow_override" with
         | some (.obj q) => NDD q
         | _ => true)) = true := hwf
      simp only [Bool.and_eq_true] at hwf2
      have hWhen := hwf2.1.1.1.1.1.1
      have hAllow := hwf2.1.1.1.1.1.2
      have hOtw := hwf2.1.1.1.1.2
      have hOa := hwf2.1.1.1.2
      have hAct := hwf2.1.1.2
      obtain ⟨w, hwEq, hwWF⟩ := match_obj_true hWhen
      unfold ruleStep
      rw [pyGet_obj]
      simp only [ok_bind]
      rw [pyGet_obj]
      simp only [ok_bind]
      rw [hwEq, match_when_wf w tool risk cls hwWF hrk]
      simp only [ok_bind]
      have hmtEq : ruleMt tool risk cls (.obj r) = mwPure w tool risk cls := by
        show mwPure (asObj (dictGet r "when")) tool risk cls = mwPure w tool risk cls
        rw [asObj_of_eq hwEq]
      cases hmt : mwPure w tool risk cls with
      | false =>
          rw [if_pos (by decide)]
          refine ⟨st.matched, st.reason, ?_⟩
          have hca : contribAct tool risk cls args env (.obj r) = .allow := by
            show (if ruleMt tool risk cls (.obj r) then ruleActD args env (.obj r)
              else .allow) = .allow
            rw [hmtEq, hmt]
            rfl
          have hco : contribObs tool risk cls args env (.obj r) = [] := by
            show (if ruleMt tool risk cls (.obj r) then ruleObs args env (.obj r)
              else []) = []
            rw [hmtEq, hmt]
            rfl
          rw [hca, hco, dmax_allow, ← hdec]
          rfl
      | true =>
          rw [if_neg (by decide)]
          simp only [pure_bind]
          have hca : contribAct tool risk cls args env (.obj r)
              = ruleActD args env (.obj r) := by
            show (if ruleMt tool risk cls (.obj r) then ruleActD args env (.obj r)
              else .allow) = ruleActD args env (.obj r)
            rw [hmtEq, hmt]
            rfl
          have hco : contribObs tool risk cls args env (.obj r)
              = ruleObs args env (.obj r) := by
            show (if ruleMt tool risk cls (.obj r) then ruleObs args env (.obj r)
              else []) = ruleObs args env (.obj r)
            rw [hmtEq, hmt]
            rfl
          rw [hca, hco]
          rcases applyGate_wf args env r st
              (st.matched ++ [pyStr (pyOr (dictGet r "id") (.str ""))])
              (pyStr (pyOr (dictGet r "id") (.str ""))) dS hdec hAllow hOtw hOa with
            ⟨hgf, hgate⟩ | ⟨hgf, r2, hgate⟩
          · rw [hgate]
            simp only [ok_bind]
            obtain ⟨r2, hrest⟩ := applyRest_wf r st
              (st.matched ++ [pyStr (pyOr (dictGet r "id") (.str ""))])
              (pyStr (pyOr (dictGet r "id") (.str ""))) dS hdec hAct
            rw [hrest]
            have h1 : ruleActD args env (.obj r) = actOf r := by
              show (if gateFails args env r then otwAct r else actOf r) = actOf r
              rw [hgf]
              rfl
            have h2 : ruleObs args env (.obj r) = restObs r := by
              show (if gateFails args env r then [] else restObs r) = restObs r
              rw [hgf]
              rfl
            rw [h1, h2]
            exact ⟨st.matched ++ [pyStr (pyOr (dictGet r "id") (.str ""))], r2, rfl⟩
          · rw [hgate]
            simp only [ok_bind]
            have h1 : ruleActD args env (.obj r) = otwAct r := by
              show (if gateFails args env r then otwAct r else actOf r) = otwAct r
              rw [hgf]
              rfl
            have h2 : ruleObs args env (.obj r) = [] := by
              show (if gateFails args env r then [] else restObs r) = ([] : List JPairs)
              rw [hgf]
              rfl
            rw [h1, h2]
            exact ⟨st.matched ++ [pyStr (pyOr (dictGet r "id") (.str ""))], r2, rfl⟩

theorem runRules_wf (tool : String) (args : Dict) (risk : String)
    (cls : List String) (env : List (String × String)) :
    ∀ (rules : List Json) (st : RState) (dS : Dc),
    (∀ ru ∈ rules, RuleWF ru = true) → levelOk risk = true → st.decision = dS.str →
    ∃ m2 r2, runRules tool args risk cls env st rules
      = .ok { decision :=
                ((rules.map (contribAct tool risk cls args env)).foldl dmax dS).str,
              obligations :=
                (rules.flatMap (contribObs tool risk cls args env)).foldl
                  mergeObligations st.obligations,
              matched := m2, reason := r2 } := by
  intro rules
  induction rules with
  | nil =>
      intro st dS _ _ hdec
      refine ⟨st.matched, st.reason, ?_⟩
      simp only [List.map_nil, List.foldl_nil, List.flatMap_nil]
      rw [← hdec]
      rfl
  | cons ru rest ih =>
      intro st dS hwf hrk hdec
      obtain ⟨m2, r2, hstep⟩ := ruleStep_wf tool args risk cls env ru st dS
        (hwf ru (List.mem_cons_self ru rest)) hrk hdec
      rw [runRules, hstep]
      simp only [ok_bind]
      obtain ⟨m3, r3, hrun⟩ := ih
        { decision := (dmax dS (contribAct tool risk cls args env ru)).str,
          obligations := (contribObs tool risk cls args env ru).foldl
            mergeObligations st.obligations,
          matched := m2, reason := r2 }
        (dmax dS (contribAct tool risk cls args env ru))
        (fun x hx => hwf x (List.mem_cons_of_mem ru hx)) hrk rfl
      rw [hrun]
      refine ⟨m3, r3, ?_⟩
      rw [List.flatMap_cons, List.foldl_append]
      rfl

theorem pyList_pyOr_arr (xs : JList) :
    pyList (pyOr (.arr xs) (.arr .nil)) = .ok xs.toList := by
  cases xs <;> rfl

theorem evaluate_rules_wf (tool : String) (args : Dict) (risk : String)
    (cls : List String) (env : List (String × String)) (rsJ : JList)
    (base : JPairs) (dS : Dc)
    (hwf : ∀ ru ∈ rsJ.toList, RuleWF ru = true) (hrk : levelOk risk = true) :
    ∃ m2 r2, evaluate_rules (.obj (.cons "rules" (.arr rsJ) base)) tool args risk
        cls dS.str env
      = .ok { decision :=
                ((rsJ.toList.map (contribAct tool risk cls args env)).foldl dmax dS).str,
              obligations :=
                (rsJ.toList.flatMap (contribObs tool risk cls args env)).foldl
                  mergeObligations .nil,
              matched := m2, reason := r2 } := by
  unfold evaluate_rules
  rw [pyGet_obj]
  simp only [ok_bind]
  rw [show dictGet (JPairs.cons "rules" (.arr rsJ) base) "rules" = .arr rsJ from rfl]
  rw [pyList_pyOr_arr]
  simp only [ok_bind]
  exact runRules_wf tool args risk cls env rsJ.toList
    { decision := dS.str, obligations := .nil, matched := [], reason := none }
    dS hwf hrk rfl


theorem risk_name_levelOk (rk : Risk) : levelOk rk.name = true := by
  cases rk <;> rfl

theorem dmax_self (d : Dc) : dmax d d = d := by
  unfold dmax
  rw [if_pos (Nat.le_refl _)]

theorem dictGet_skip {x : Json} {base : JPairs} {k1 k : String} (h : ¬ k1 = k) :
    dictGet (JPairs.cons k1 x base) k = dictGet base k := by
  unfold dictGet
  rw [getVal_cons, if_neg h]

theorem classify_rules_indep (tool : String) (args : Dict)
    (sessionKind : String) (intent : Option Dict) (x y : Json) (base : JPairs) :
    classify tool args (.obj (.cons "rules" x base)) sessionKind intent
      = classify tool args (.obj (.cons "rules" y base)) sessionKind intent := by
  have h : getAllowlistDomains (.obj (.cons "rules" x base))
      = getAllowlistDomains (.obj (.cons "rules" y base)) := by
    unfold getAllowlistDomains
    rw [if_neg (by simp [Json.truthy, JPairs.isNil]),
        if_neg (by simp [Json.truthy, JPairs.isNil])]
    simp only [pure_bind]
    rw [pyGet_obj, pyGet_obj]
    simp only [ok_bind]
    rw [dictGet_skip (by decide), dictGet_skip (by decide)]
  unfold classify
  rw [h]

/-- The constitution base policy, as a decision value. -/
def basePolicyD (base : JPairs) : Dc :=
  (dcOf (pyStr (pyOr (dictGet (asObj (dictGet base "defaults")) "tool_policy")
    (.str "confirm")))).getD .allow

/-- The decision of one evaluation pass, as a pure fold. -/
def passAct (tool risk : String) (cls : List String) (args : Dict)
    (env : List (String × String)) (rules : List Json) (d : Dc) : Dc :=
  (rules.map (contribAct tool risk cls args env)).foldl dmax d

/-- The merged obligations of one evaluation pass, as a pure fold. -/
def passObs (tool risk : String) (cls : List String) (args : Dict)
    (env : List (String × String)) (rules : List Json) : JPairs :=
  (rules.flatMap (contribObs tool risk cls args env)).foldl mergeObligations .nil

theorem mainEval_wf (tool : String) (args : Dict) (intent : Option Dict)
    (sessionKind : String) (env : List (String × String)) (version : String)
    (rsJ : JList) (base : JPairs) (cl : Classified)
    (hcl : classify tool args (.obj (.cons "rules" (.arr rsJ) base)) sessionKind
      intent = .ok cl)
    (hwf : ∀ ru ∈ rsJ.toList, RuleWF ru = true)
    (hdef : objOrFalsy (dictGet base "defaults") = true)
    (hbase : dcOk (pyStr (pyOr (dictGet (asObj (dictGet base "defaults"))
      "tool_policy") (.str "confirm"))) = true) :
    ∃ res, mainEval (.obj (.cons "rules" (.arr rsJ) base)) tool args intent
        sessionKind env version = .ok res ∧
      res.risk = cl.risk.name ∧
      res.classifications = sortStrings cl.tags ∧
      res.decision = (passAct tool cl.risk.name (sortStrings cl.tags) args env
        rsJ.toList (basePolicyD base)).str ∧
      res.obligations =
        mergeObligations
          (mergeObligations .nil
            (passObs tool cl.risk.name (sortStrings cl.tags) args env rsJ.toList))
          (passObs tool cl.risk.name (sortStrings cl.tags) args env rsJ.toList) := by
  unfold mainEval
  rw [hcl]
  simp only [ok_bind]
  rw [pyGet_obj]
  simp only [ok_bind]
  rw [dictGet_skip (by decide), pyOr_objOrFalsy hdef, pyGet_obj]
  simp only [ok_bind]
  rw [show pyStr (pyOr (dictGet (asObj (dictGet base "defaults")) "tool_policy")
        (.str "confirm")) = (basePolicyD base).str from (dcOk_str hbase).symm]
  obtain ⟨m1, rr1, h1⟩ := evaluate_rules_wf tool args cl.risk.name
    (sortStrings cl.tags) env rsJ base (basePolicyD base) hwf
    (risk_name_levelOk cl.risk)
  rw [h1]
  simp only [ok_bind]
  obtain ⟨m2, rr2, h2⟩ := evaluate_rules_wf tool args cl.risk.name
    (sortStrings cl.tags) env rsJ base
    ((rsJ.toList.map (contribAct tool cl.risk.name (sortStrings cl.tags) args env)).foldl
      dmax (basePolicyD base)) hwf (risk_name_levelOk cl.risk)
  rw [h2]
  simp only [ok_bind]
  rw [foldl_dmax_absorb, max_decision_str, dmax_self]
  simp only [ok_bind]
  by_cases hconf : ((rsJ.toList.map (contribAct tool cl.risk.name
      (sortStrings cl.tags) args env)).foldl dmax (basePolicyD base)).str = "confirm"
  · rw [if_pos hconf, pyGet_obj]
    simp only [ok_bind]
    exact ⟨_, rfl, rfl, rfl, rfl, rfl⟩
  · rw [if_neg hconf]
    simp only [pure_bind]
    exact ⟨_, rfl, rfl, rfl, rfl, rfl⟩


theorem NDD_nil : NDD .nil = true := rfl

theorem NDD_single {k : String} {q : JPairs} (h : NDD q = true) :
    NDD (JPairs.cons k (.obj q) .nil) = true := by
  rw [NDD, NDJ_obj, Bool.and_eq_true, NDP_cons, Bool.and_eq_true]
  refine ⟨by simp [keys_cons, nodupKeys, JPairs.keys, List.contains_nil], ?_, rfl⟩
  rw [NDJ_obj]
  exact h

theorem restObs_NDD (r : JPairs)
    (hreq : (match getVal r "require" with
             | some (.obj q) => NDD q
             | _ => true) = true)
    (hao : (match getVal r "allow_override" with
            | some (.obj q) => NDD q
            | _ => true) = true) :
    ∀ s ∈ restObs r, NDD s = true := by
  intro s hs
  unfold restObs at hs
  rw [List.mem_append] at hs
  cases hs with
  | inl h1 =>
      cases hv : getVal r "require" with
      | none => rw [hv] at h1; simp at h1
      | some v =>
          rw [hv] at h1 hreq
          cases v with
          | obj q =>
              have hsq : s = q := by simpa using h1
              subst hsq
              exact hreq
          | null => simp at h1
          | bool b => simp at h1
          | num n => simp at h1
          | str t => simp at h1
          | arr xs => simp at h1
  | inr h1 =>
      cases hv : getVal r "allow_override" with
      | none => rw [hv] at h1; simp at h1
      | some v =>
          rw [hv] at h1 hao
          cases v with
          | obj q =>
              have hsq : s = JPairs.cons "allow_override" (.obj q) .nil := by
                simpa using h1
              subst hsq
              exact NDD_single hao
          | null => simp at h1
          | bool b => simp at h1
          | num n => simp at h1
          | str t => simp at h1
          | arr xs => simp at h1

theorem rawObs_NDD (ru : Json) (h : RuleWF ru = true) :
    ∀ s ∈ rawObs ru, NDD s = true := by
  cases ru with
  | obj r =>
      have hwf2 : ((match pyOr (dictGet r "when") (.obj .nil) with
         | .obj w => whenWF w
         | _ => false) &&
        (match getVal r "allow_if" with
         | some v =>
             objOrFalsy v &&
             (match getVal (asObj v) "path_prefix_any" with
              | some pv => iterOk pv
              | none => true)
         | none => true) &&
        objOrFalsy (dictGet r "otherwise") &&
        dcOk (pyStr (pyOr (dictGet (asObj (dictGet r "otherwise")) "action")
          (.str "confirm"))) &&
        dcOk (pyStr (pyOr (dictGet r "action") (.str "allow"))) &&
        (match getVal r "require" with
         | some (.obj q) => NDD q
         | _ => true) &&
        (match getVal r "allow_override" with
         | some (.obj q) => NDD q
         | _ => true)) = true := h
      simp only [Bool.and_eq_true] at hwf2
      exact restObs_NDD r hwf2.1.2 hwf2.2
  | null => intro s hs; simp [rawObs] at hs
  | bool b => intro s hs; simp [rawObs] at hs
  | num n => intro s hs; simp [rawObs] at hs
  | str t => intro s hs; simp [rawObs] at hs
  | arr xs => intro s hs; simp [rawObs] at hs

theorem contribObs_sublist (tool risk : String) (cls : List String) (args : Dict)
    (env : List (String × String)) (ru : Json) :
    List.Sublist (contribObs tool risk cls args env ru) (rawObs ru) := by
  cases ru with
  | obj r =>
      show List.Sublist (if ruleMt tool risk cls (.obj r) then
              (if gateFails args env r then [] else restObs r)
            else []) (restObs r)
      split
      · split
        · exact List.nil_sublist _
        · exact List.Sublist.refl _
      · exact List.nil_sublist _
  | null => exact List.Sublist.refl _
  | bool b => exact List.Sublist.refl _
  | num n => exact List.Sublist.refl _
  | str t => exact List.Sublist.refl _
  | arr xs => exact List.Sublist.refl _

theorem flatMap_sublist {l : List Json} {f g : Json → List JPairs}
    (h : ∀ x ∈ l, List.Sublist (f x) (g x)) :
    List.Sublist (l.flatMap f) (l.flatMap g) := by
  induction l with
  | nil => exact List.Sublist.refl _
  | cons x tl ih =>
      rw [List.flatMap_cons, List.flatMap_cons]
      exact List.Sublist.append (h x (List.mem_cons_self x tl))
        (ih fun y hy => h y (List.mem_cons_of_mem x hy))

theorem perm_flatMap {l1 l2 : List Json} (g : Json → List JPairs)
    (h : l1.Perm l2) : (l1.flatMap g).Perm (l2.flatMap g) := by
  induction h with
  | nil => exact List.Perm.refl _
  | cons x p ih =>
      rw [List.flatMap_cons, List.flatMap_cons]
      exact List.Perm.append_left (g x) ih
  | swap x y l =>
      rw [List.flatMap_cons, List.flatMap_cons, List.flatMap_cons,
          List.flatMap_cons, ← List.append_assoc, ← List.append_assoc]
      exact List.Perm.append_right _ (List.perm_append_comm)
  | trans p1 p2 ih1 ih2 => exact ih1.trans ih2

/-- C4 amended. Provided no rule matches on `when.decision` (and rules are
well-shaped), two constitutions that differ only in the order of their
rules produce the same final decision, the same risk and the same
classifications; and when additionally no two rules write conflicting
obligation leaves (values written under a shared key path are either equal
or both sub-mappings, recursively), the merged obligations are equal as
nested unordered mappings. Reason codes and `when.decision` matchers remain
order-sensitive (see the counterexample). -/
theorem claim_C4_amended (tool : String) (args : Dict) (intent : Option Dict)
    (sessionKind : String) (env : List (String × String)) (version : String)
    (rsJ rsJ2 : JList) (base : JPairs) (res res2 : EvalOut)
    (hperm : rsJ.toList.Perm rsJ2.toList)
    (hwf : ∀ ru ∈ rsJ.toList, RuleWF ru = true)
    (hpw : (rsJ.toList.flatMap rawObs).Pairwise pcompat2)
    (hdef : objOrFalsy (dictGet base "defaults") = true)
    (hbase : dcOk (pyStr (pyOr (dictGet (asObj (dictGet base "defaults"))
      "tool_policy") (.str "confirm"))) = true)
    (h1 : mainEval (.obj (.cons "rules" (.arr rsJ) base)) tool args intent
      sessionKind env version = .ok res)
    (h2 : mainEval (.obj (.cons "rules" (.arr rsJ2) base)) tool args intent
      sessionKind env version = .ok res2) :
    res.decision = res2.decision ∧ res.risk = res2.risk ∧
    res.classifications = res2.classifications ∧
    Jeq (.obj res.obligations) (.obj res2.obligations) := by
  have h1e := h1
  unfold mainEval at h1e
  obtain ⟨cl, hcl, _⟩ := bind_eq_ok.mp h1e
  obtain ⟨resA, hA, hAr, hAc, hAd, hAo⟩ := mainEval_wf tool args intent sessionKind
    env version rsJ base cl hcl hwf hdef hbase
  have hres : res = resA := by
    rw [h1] at hA
    exact Except.ok.inj hA
  have hcl2 : classify tool args (.obj (.cons "rules" (.arr rsJ2) base))
      sessionKind intent = .ok cl := by
    rw [classify_rules_indep tool args sessionKind intent (.arr rsJ2) (.arr rsJ) base]
    exact hcl
  have hwfB : ∀ ru ∈ rsJ2.toList, RuleWF ru = true := fun ru hru =>
    hwf ru (hperm.mem_iff.mpr hru)
  obtain ⟨resB, hB, hBr, hBc, hBd, hBo⟩ := mainEval_wf tool args intent sessionKind
    env version rsJ2 base cl hcl2 hwfB hdef hbase
  have hres2 : res2 = resB := by
    rw [h2] at hB
    exact Except.ok.inj hB
  subst hres
  subst hres2
  have hcontribSub : List.Sublist (rsJ.toList.flatMap
      (contribObs tool cl.risk.name (sortStrings cl.tags) args env))
      (rsJ.toList.flatMap rawObs) :=
    flatMap_sublist (fun x _ =>
      contribObs_sublist tool cl.risk.name (sortStrings cl.tags) args env x)
  have hndAll : ∀ s ∈ rsJ.toList.flatMap
      (contribObs tool cl.risk.name (sortStrings cl.tags) args env),
      NDD s = true := by
    intro s hs
    rw [List.mem_flatMap] at hs
    obtain ⟨ru, hru, hsru⟩ := hs
    exact rawObs_NDD ru (hwf ru hru) s
      ((contribObs_sublist tool cl.risk.name (sortStrings cl.tags) args env ru).subset hsru)
  have hpw2 : (rsJ.toList.flatMap
      (contribObs tool cl.risk.name (sortStrings cl.tags) args env)).Pairwise
      pcompat2 := List.Pairwise.sublist hcontribSub hpw
  have hnd1 : NDD (passObs tool cl.risk.name (sortStrings cl.tags) args env
      rsJ.toList) = true :=
    NDD_fold _ _ NDD_nil hndAll
  have hndAll2 : ∀ s ∈ rsJ2.toList.flatMap
      (contribObs tool cl.risk.name (sortStrings cl.tags) args env),
      NDD s = true := by
    intro s hs
    rw [List.mem_flatMap] at hs
    obtain ⟨ru, hru, hsru⟩ := hs
    exact rawObs_NDD ru (hwfB ru hru) s
      ((contribObs_sublist tool cl.risk.name (sortStrings cl.tags) args env ru).subset hsru)
  have hnd2 : NDD (passObs tool cl.risk.name (sortStrings cl.tags) args env
      rsJ2.toList) = true :=
    NDD_fold _ _ NDD_nil hndAll2
  have hfp : PJeq (passObs tool cl.risk.name (sortStrings cl.tags) args env rsJ.toList)
      (passObs tool cl.risk.name (sortStrings cl.tags) args env rsJ2.toList) :=
    fold_perm (perm_flatMap _ hperm) hndAll hpw2 .nil
  refine ⟨?_, ?_, ?_, ?_⟩
  · rw [hAd, hBd]
    unfold passAct
    exact congrArg Dc.str (foldl_dmax_perm (hperm.map _) (basePolicyD base))
  · rw [hAr, hBr]
  · rw [hAc, hBc]
  · rw [hAo, hBo]
    exact Jeq.objIntro (PJeq_trans (PJeq_trans (double_merge_self hnd1) hfp)
      (PJeq_symm (double_merge_self hnd2)))


def c4wRule1 : Json :=
  Json.obj (JPairs.ofList
    [("id", .str "r-one"), ("action", .str "confirm"),
     ("require", Json.obj (JPairs.ofList
        [("disclosure", Json.obj (JPairs.ofList [("mode", .str "append_if_missing")]))]))])

def c4wRule2 : Json :=
  Json.obj (JPairs.ofList
    [("id", .str "r-two"), ("action", .str "deny"),
     ("require", Json.obj (JPairs.ofList [("audit", Json.bool true)]))])

def c4wBase : JPairs :=
  JPairs.ofList
    [("defaults", Json.obj (JPairs.ofList [("tool_policy", .str "allow")]))]

def c4wArgs : Dict := JPairs.ofList [("path", .str "/tmp/x.txt")]

def c4wCon1 : Json :=
  Json.obj (.cons "rules" (.arr (JList.ofList [c4wRule1, c4wRule2])) c4wBase)

def c4wCon2 : Json :=
  Json.obj (.cons "rules" (.arr (JList.ofList [c4wRule2, c4wRule1])) c4wBase)

def c4wRes1 : EvalOut :=
  { decision := "deny", reason_code := some "r-one", risk := "medium",
    classifications := [],
    obligations := JPairs.ofList
      [("disclosure", Json.obj (JPairs.ofList [("mode", .str "append_if_missing")])),
       ("audit", Json.bool true)],
    scope_hash := none, matched_rules := ["r-one", "r-two"] }

def c4wRes2 : EvalOut :=
  { decision := "deny", reason_code := some "r-two", risk := "medium",
    classifications := [],
    obligations := JPairs.ofList
      [("audit", Json.bool true),
       ("disclosure", Json.obj (JPairs.ofList [("mode", .str "append_if_missing")]))],
    scope_hash := none, matched_rules := ["r-one", "r-two"] }

set_option maxRecDepth 100000 in
/-- Witness for C4 amended: two constitutions whose two rules are swapped
(confirm-with-require versus deny-with-require, disjoint obligation keys)
evaluate to the same decision, risk and classifications, and to
lookup-equal obligations, although the stored key order and the reason
code differ. -/
theorem claim_C4_witness :
    mainEval c4wCon1 "read" c4wArgs none "main" [] "phase1-ref-eval-1" = .ok c4wRes1 ∧
    mainEval c4wCon2 "read" c4wArgs none "main" [] "phase1-ref-eval-1" = .ok c4wRes2 ∧
    c4wRes1.decision = c4wRes2.decision ∧ c4wRes1.risk = c4wRes2.risk ∧
    c4wRes1.classifications = c4wRes2.classifications ∧
    Jeq (.obj c4wRes1.obligations) (.obj c4wRes2.obligations) := by
  have hm1 : mainEval c4wCon1 "read" c4wArgs none "main" [] "phase1-ref-eval-1"
      = .ok c4wRes1 := by decide
  have hm2 : mainEval c4wCon2 "read" c4wArgs none "main" [] "phase1-ref-eval-1"
      = .ok c4wRes2 := by decide
  have main := claim_C4_amended "read" c4wArgs none "main" [] "phase1-ref-eval-1"
    (JList.ofList [c4wRule1, c4wRule2]) (JList.ofList [c4wRule2, c4wRule1]) c4wBase
    c4wRes1 c4wRes2 (List.Perm.swap c4wRule2 c4wRule1 []) (by decide) (by decide)
    (by decide) (by decide) hm1 hm2
  exact ⟨hm1, hm2, main.1, main.2.1, main.2.2.1, main.2.2.2⟩

end AosPolicy
